import Mathlib

/-!
# Encryption-Decryption: a shallow embedding of the one-time-pad servers and clients

The repository holds four C programs that talk over a stream socket
(`enc_server.c`, `dec_server.c`, `enc_client.c`, `dec_client.c`) and a key
generator.  This file embeds the cipher transforms, the client-side validation
and the per-connection handlers as Lean functions and proves properties of them.

## Conventions of the embedding

* A C `char` is an `Int` (its value after integer promotion).  `char` is taken
  to be the signed 8-bit type of gcc on x86-64 Linux; `toChar` is the conversion
  of an `int` back to `char`.
* A buffer is a `List Int`; every read past the end of the list yields `0`.
  This is the situation of the sources, which `memset` their 1024-byte buffers
  to zero before filling them.  A C string is the part of a buffer before the
  first `0`.
* `int` is the 32-bit two's complement type, laid out little-endian when it is
  written to or read from the socket (the native order of the platform).
* Undefined behaviour of the C program (a store outside a buffer, `strchr`
  returning `NULL` and being subtracted from, an indeterminate value being used)
  is an explicit result of the model, never a silently chosen value.
-/

/-! ## Characters, strings and the few libc functions the sources call -/

/-- The value of a character constant such as `'A'`. -/
def chr (c : Char) : Int := (c.toNat : Int)

/-- The characters of a string literal, without the terminating NUL. -/
def lit (s : String) : List Int := s.toList.map chr

/-- Conversion of an `int` to (signed, 8-bit) `char`. -/
def toChar (x : Int) : Int := (x + 128) % 256 - 128

/-- The part of a buffer that C string functions see: the bytes before the
first NUL. -/
def cstr (buf : List Int) : List Int := buf.takeWhile (fun c => c ≠ 0)

/-- Model of `strlen(buf)`. -/
def strlen : List Int → Nat
  | [] => 0
  | c :: rest => if c = 0 then 0 else strlen rest + 1

/-- Model of `strchr(s, c) - s`: the offset of the first occurrence of `c` in the C string
`s`, whose terminating NUL counts as part of the string; `none` when `strchr`
returns `NULL`. -/
def strchr : List Int → Int → Option Nat
  | [], c => if c = 0 then some 0 else none
  | x :: rest, c =>
    if x = c then some 0
    else if x = 0 then none
    else (strchr rest c).map (fun n => n + 1)

/-- Model of `strcmp(a, b)`: zero when the two C strings are equal, otherwise a
negative or a positive value according to the first pair of differing
characters, compared as `unsigned char`. -/
def strcmp : List Int → List Int → Int
  | [], [] => 0
  | a :: _, [] => if a = 0 then 0 else 1
  | [], b :: _ => if b = 0 then 0 else -1
  | a :: as, b :: bs =>
    if a ≠ b then (if a % 256 < b % 256 then -1 else 1)
    else if a = 0 then 0
    else strcmp as bs

/-- The element `s[i]` of a string literal `s`, its terminating NUL included;
`none` when the index is outside the array. -/
def charAt (s : List Int) (i : Int) : Option Int :=
  if 0 ≤ i ∧ i ≤ (s.length : Int) then some (s.getD i.toNat 0) else none

/-- Conversion of a value to the 32-bit `int`. -/
def toInt32 (x : Int) : Int := (x + 2147483648) % 4294967296 - 2147483648

/-- Conversion of an `int` to `size_t` (64 bits), as happens to the third argument
of `read` and `write`. -/
def toSizeT (x : Int) : Nat := (x % 18446744073709551616).toNat

/-- The four bytes of the object representation of an `int`, lowest byte first:
what `write(fd, &n, sizeof(int))` sends. -/
def int_bytes (n : Int) : List Int :=
  let u : Int := n % 4294967296
  [toChar (u % 256), toChar (u / 256 % 256), toChar (u / 65536 % 256), toChar (u / 16777216 % 256)]

/-- The `int` whose object representation is the given four bytes: what
`read(fd, &n, sizeof(int))` leaves in `n` when it transfers all four. -/
def bytes_int (bytes : List Int) : Int :=
  toInt32 (bytes.getD 0 0 % 256 + 256 * (bytes.getD 1 0 % 256)
    + 65536 * (bytes.getD 2 0 % 256) + 16777216 * (bytes.getD 3 0 % 256))

/-! ## The stream socket -/

/-- One end of a connected stream socket, as the program holding it sees it. -/
structure Conn where
  /-- What the successive `read` calls find: `none` is a read that fails (returns
  -1), `some bytes` a segment of bytes that has arrived.  An exhausted list is
  end of file. -/
  incoming : List (Option (List Int))
  /-- Whether the successive `write` calls fail (`true`: the call returns -1);
  once the list is exhausted every write succeeds. -/
  wfail : List Bool
  /-- The byte strings handed to the successful `write` calls, oldest first. -/
  written : List (List Int)
  /-- Whether `close` has been called on the descriptor. -/
  closed : Bool
  deriving DecidableEq, Repr

namespace Conn

/-- Model of `read(fd, buf, count)`: the result (`none` for -1, otherwise the bytes
transferred, which are at most `count` and at most the segment that has arrived)
and the connection afterwards.  A read of zero bytes transfers nothing and
leaves the connection as it is. -/
def read (c : Conn) (count : Nat) : Option (List Int) × Conn :=
  if count = 0 then (some [], c)
  else
    match c.incoming with
    | [] => (some [], c)
    | none :: rest => (none, { c with incoming := rest })
    | some bytes :: rest =>
      if bytes.length ≤ count then (some bytes, { c with incoming := rest })
      else (some (bytes.take count), { c with incoming := some (bytes.drop count) :: rest })

/-- Model of `write(fd, buf, count)` with `bytes` the `count` bytes at `buf`: whether the
call succeeded, and the connection afterwards.  A successful write transfers
all the bytes. -/
def write (c : Conn) (bytes : List Int) : Bool × Conn :=
  match c.wfail with
  | [] => (true, { c with written := c.written ++ [bytes] })
  | false :: rest => (true, { c with wfail := rest, written := c.written ++ [bytes] })
  | true :: rest => (false, { c with wfail := rest })

/-- Model of `close(fd)`. -/
def close (c : Conn) : Conn := { c with closed := true }

/-- A fresh connection on which the given byte strings, written by the peer one
`write` each, arrive as one segment per `read`, and on which no read or write
fails.  A write of zero bytes transmits nothing, so it leaves no segment. -/
def ofSegments (segments : List (List Int)) : Conn :=
  { incoming := (segments.filter (fun s => s ≠ [])).map some,
    wfail := [], written := [], closed := false }

end Conn

/-- How a call of a server's `handle_client` ends, with the connection as it is
at that point. -/
inductive Outcome where
  /-- The function returned to its caller (the worker then calls `exit(0)`). -/
  | returned (c : Conn)
  /-- The function called `error`, which prints with `perror` and calls `exit(1)`. -/
  | exited (c : Conn)
  /-- The execution reached undefined behaviour. -/
  | undefined (c : Conn)
  deriving DecidableEq, Repr

/-- The connection at the end of a call of `handle_client`. -/
def Outcome.conn : Outcome → Conn
  | Outcome.returned c => c
  | Outcome.exited c => c
  | Outcome.undefined c => c

/-! ## `enc_server.c`: the encryption transform -/

namespace EncServer

/-- Constant `#define BUFFER_SIZE 1024` -/
def BUFFER_SIZE : Nat := 1024

/-- Constant `#define CHAR_COUNT 27` -/
def CHAR_COUNT : Int := 27

/-- Constant `#define ALLOWED_CHARS "ABCDEFGHIJKLMNOPQRSTUVWXYZ "` -/
def ALLOWED_CHARS : List Int := lit "ABCDEFGHIJKLMNOPQRSTUVWXYZ "

/-- One iteration of the loop of `encrypt_text`: the character stored in
`ciphertext[i]` for `plaintext[i] = p` and `key[i] = k`.  `%` of C truncates
towards zero, which is `Int.tmod`. -/
def encrypt_char (p k : Int) : Int :=
  let plain_char : Int := if p = chr ' ' then 26 else p - chr 'A'
  let key_char : Int := if k = chr ' ' then 26 else k - chr 'A'
  let encrypted_char : Int := Int.tmod (plain_char + key_char) CHAR_COUNT
  toChar (if encrypted_char = 26 then chr ' ' else chr 'A' + encrypted_char)

/-- Function `void encrypt_text(const char *plaintext, const char *key, char *ciphertext)`:
the string left in `ciphertext`.  The loop runs while `plaintext[i] != 0` and
reads `key[i]` at the same index, so the recursion walks both buffers in step;
a key buffer that has run out reads as `0`. -/
def encrypt_text : List Int → List Int → List Int
  | [], _ => []
  | p :: plaintext, key =>
    if p = 0 then []
    else encrypt_char p (key.headD 0) :: encrypt_text plaintext key.tail

/-- The index that lines 34 and 35 of `enc_server.c` compute for a character of
the plaintext or of the key: `(c == ' ') ? 26 : c - 'A'`. -/
def char_index (c : Int) : Int := if c = chr ' ' then 26 else c - chr 'A'

/-- The character that line 39 of `enc_server.c` stores for an index:
`(encrypted_char == 26) ? ' ' : 'A' + encrypted_char`. -/
def index_char (i : Int) : Int := toChar (if i = 26 then chr ' ' else chr 'A' + i)

/-- The value of the variable `encrypted_char` (line 37 of `enc_server.c`) in the
iteration with `plaintext[i] = p` and `key[i] = k`. -/
def encrypted_char (p k : Int) : Int := Int.tmod (char_index p + char_index k) CHAR_COUNT

end EncServer

/-! ## `dec_server.c`: the decryption transform -/

namespace DecServer

/-- Constant `#define BUFFER_SIZE 1024` -/
def BUFFER_SIZE : Nat := 1024

/-- Constant `#define ALPHABET "ABCDEFGHIJKLMNOPQRSTUVWXYZ "` -/
def ALPHABET : List Int := lit "ABCDEFGHIJKLMNOPQRSTUVWXYZ "

/-- Constant `#define ALPHABET_SIZE 27` -/
def ALPHABET_SIZE : Int := 27

/-- One iteration of the loop of `decrypt_message`: the character stored in
`plaintext[i]` for `ciphertext[i] = c` and `key[i] = k`; `none` when the
iteration has undefined behaviour (`strchr` returned `NULL`, or the index into
`ALPHABET` is outside the array). -/
def decrypt_char (c k : Int) : Option Int :=
  match strchr ALPHABET c, strchr ALPHABET k with
  | some cipher_index, some key_index =>
    let plain_index : Int :=
      Int.tmod ((cipher_index : Int) - (key_index : Int) + ALPHABET_SIZE) ALPHABET_SIZE
    charAt ALPHABET plain_index
  | _, _ => none

/-- The loop of `decrypt_message` over the `cipher_len` characters of the
ciphertext string, reading `key[i]` at the same index. -/
def decrypt_loop : List Int → List Int → Option (List Int)
  | [], _ => some []
  | c :: ciphertext, key =>
    match decrypt_char c (key.headD 0) with
    | none => none
    | some p =>
      match decrypt_loop ciphertext key.tail with
      | none => none
      | some rest => some (p :: rest)

/-- Function `void decrypt_message(const char *ciphertext, const char *key, char *plaintext)`:
the string left in `plaintext`, or `none` when the call has undefined
behaviour.  `cipher_len = strlen(ciphertext)` bounds the loop. -/
def decrypt_message (ciphertext key : List Int) : Option (List Int) :=
  decrypt_loop (cstr ciphertext) key

/-- The value of the variable `plain_index` (line 37 of `dec_server.c`) in the
iteration with `ciphertext[i] = c` and `key[i] = k`; `none` when one of the two
`strchr` calls returned `NULL`. -/
def plain_index (c k : Int) : Option Int :=
  match strchr ALPHABET c, strchr ALPHABET k with
  | some cipher_index, some key_index =>
    some (Int.tmod ((cipher_index : Int) - (key_index : Int) + ALPHABET_SIZE) ALPHABET_SIZE)
  | _, _ => none

end DecServer

/-! ## `enc_server.c`: the connection handler -/

namespace EncServer

/-- Function `void handle_client(int connection_socket, struct sockaddr_in client_addr)`
of `enc_server.c`, on the connection `c0`.  The diagnostics printed to the
console are left out.

The buffers `verification`, `plaintext` and `key` are zeroed before they are
read into, so each is the list of bytes the read transferred.  The stores
`plaintext[plaintext_len] = 0` and `key[plaintext_len] = 0` are outside the
1024-byte buffers unless `0 ≤ plaintext_len < BUFFER_SIZE`; inside that range
they cut the buffer to at most `plaintext_len` characters. -/
def handle_client (c0 : Conn) : Outcome :=
  -- n = read(connection_socket, verification, BUFFER_SIZE - 1)
  match c0.read (BUFFER_SIZE - 1) with
  | (none, c1) => Outcome.exited c1
  | (some verification, c1) =>
    if strcmp verification (lit "ENC_CLIENT") ≠ 0 then
      Outcome.returned c1.close
    else
      -- n = write(connection_socket, response, strlen(response))
      match c1.write (lit "ENC_SERVER") with
      | (false, c2) => Outcome.exited c2
      | (true, c2) =>
        -- n = read(connection_socket, &plaintext_len, sizeof(int)); if (n <= 0) ...
        match c2.read 4 with
        | (none, c3) => Outcome.returned c3.close
        | (some lenbytes, c3) =>
          if lenbytes.length = 0 then Outcome.returned c3.close
          else if lenbytes.length < 4 then Outcome.undefined c3
          else
            let plaintext_len : Int := bytes_int lenbytes
            -- n = read(connection_socket, plaintext, plaintext_len)
            match c3.read (toSizeT plaintext_len) with
            | (none, c4) => Outcome.exited c4
            | (some pbytes, c4) =>
              if plaintext_len < 0 ∨ (BUFFER_SIZE : Int) ≤ plaintext_len then Outcome.undefined c4
              else
                let plaintext := pbytes.take plaintext_len.toNat
                -- n = read(connection_socket, key, plaintext_len)
                match c4.read (toSizeT plaintext_len) with
                | (none, c5) => Outcome.exited c5
                | (some kbytes, c5) =>
                  let key := kbytes.take plaintext_len.toNat
                  if strlen key < strlen plaintext then Outcome.returned c5.close
                  else
                    let ciphertext := encrypt_text plaintext key
                    -- n = write(connection_socket, ciphertext, strlen(ciphertext))
                    match c5.write (ciphertext.take (strlen ciphertext)) with
                    | (false, c6) => Outcome.exited c6
                    | (true, c6) => Outcome.returned c6.close

end EncServer

/-! ## `dec_server.c`: the connection handler -/

namespace DecServer

/-- Function `void handle_client(int connection_socket, struct sockaddr_in client_addr)`
of `dec_server.c`, on the connection `c0`; the same steps as the encryption
server with the tags `DEC_CLIENT` and `DEC_SERVER` and with `decrypt_message`,
whose undefined behaviour is that of the handler. -/
def handle_client (c0 : Conn) : Outcome :=
  -- n = read(connection_socket, verification, BUFFER_SIZE - 1)
  match c0.read (BUFFER_SIZE - 1) with
  | (none, c1) => Outcome.exited c1
  | (some verification, c1) =>
    if strcmp verification (lit "DEC_CLIENT") ≠ 0 then
      Outcome.returned c1.close
    else
      -- n = write(connection_socket, response, strlen(response))
      match c1.write (lit "DEC_SERVER") with
      | (false, c2) => Outcome.exited c2
      | (true, c2) =>
        -- n = read(connection_socket, &ciphertext_len, sizeof(int)); if (n <= 0) ...
        match c2.read 4 with
        | (none, c3) => Outcome.returned c3.close
        | (some lenbytes, c3) =>
          if lenbytes.length = 0 then Outcome.returned c3.close
          else if lenbytes.length < 4 then Outcome.undefined c3
          else
            let ciphertext_len : Int := bytes_int lenbytes
            -- n = read(connection_socket, ciphertext, ciphertext_len)
            match c3.read (toSizeT ciphertext_len) with
            | (none, c4) => Outcome.exited c4
            | (some cbytes, c4) =>
              if ciphertext_len < 0 ∨ (BUFFER_SIZE : Int) ≤ ciphertext_len then Outcome.undefined c4
              else
                let ciphertext := cbytes.take ciphertext_len.toNat
                -- n = read(connection_socket, key, ciphertext_len)
                match c4.read (toSizeT ciphertext_len) with
                | (none, c5) => Outcome.exited c5
                | (some kbytes, c5) =>
                  let key := kbytes.take ciphertext_len.toNat
                  if strlen key < strlen ciphertext then Outcome.returned c5.close
                  else
                    match decrypt_message ciphertext key with
                    | none => Outcome.undefined c5
                    | some plaintext =>
                      -- n = write(connection_socket, plaintext, strlen(plaintext))
                      match c5.write (plaintext.take (strlen plaintext)) with
                      | (false, c6) => Outcome.exited c6
                      | (true, c6) => Outcome.returned c6.close

end DecServer

/-! ## The clients -/

/-- What the operating system and the peer do during one run of a client. -/
structure Env where
  /-- Whether `socket()` returns a descriptor. -/
  socket_ok : Bool
  /-- Whether `gethostbyname("localhost")` finds the host. -/
  host_ok : Bool
  /-- Whether `connect()` succeeds. -/
  connect_ok : Bool
  /-- The connection that a successful `connect()` establishes. -/
  conn : Conn
  deriving DecidableEq, Repr

/-- What a client does that is visible outside its socket, in order.  Of the
messages on `stderr` only the one that precedes an `exit(1)` is recorded. -/
inductive Event where
  /-- A message printed on `stderr` (by `fprintf` or `perror`). -/
  | stderr (msg : String)
  /-- The call of `socket()`. -/
  | socket
  /-- The call of `gethostbyname()`. -/
  | gethostbyname
  /-- The call of `connect()`. -/
  | connect
  /-- The bytes printed on `stdout`. -/
  | stdout (bytes : List Int)
  deriving DecidableEq, Repr

/-- One run of a client: what it did, the socket it was left with (`none` when
no connection was established) and its exit status. -/
structure Run where
  /-- The events of the run, oldest first. -/
  trace : List Event
  /-- The connection at the end of the run. -/
  conn : Option Conn
  /-- The exit status of the process. -/
  status : Nat
  deriving DecidableEq, Repr

/-- How `validate_input` ends: it returns, or it prints
`Error: input contains bad characters` and calls `exit(1)`. -/
inductive Validation where
  /-- The function returned to `main`. -/
  | passed
  /-- The function stopped the program with status 1. -/
  | rejected
  deriving DecidableEq, Repr

/-! ## `enc_client.c` -/

namespace EncClient

/-- Constant `#define BUFFER_SIZE 1024` -/
def BUFFER_SIZE : Nat := 1024

/-- Constant `#define ALLOWED_CHARS "ABCDEFGHIJKLMNOPQRSTUVWXYZ "` -/
def ALLOWED_CHARS : List Int := lit "ABCDEFGHIJKLMNOPQRSTUVWXYZ "

/-- Function `void validate_input(const char *text)` of `enc_client.c`: the loop runs over
the characters before the terminating NUL and stops the program at the first
one for which `strchr(ALLOWED_CHARS, text[i])` is `NULL`. -/
def validate_input : List Int → Validation
  | [] => Validation.passed
  | c :: text =>
    if c = 0 then Validation.passed
    else if strchr ALLOWED_CHARS c = none then Validation.rejected
    else validate_input text

/-- Function `main` of `enc_client.c` from the call of `validate_input` on, with `plaintext`
and `key` the two strings that `read_file` returned. -/
def main (plaintext key : List Int) (env : Env) : Run :=
  match validate_input plaintext with
  | Validation.rejected => Run.mk [Event.stderr "Error: input contains bad characters"] none 1
  | Validation.passed =>
    if strlen key < strlen plaintext then
      Run.mk [Event.stderr "Error: key is too short"] none 1
    else if env.socket_ok = false then
      Run.mk [Event.socket, Event.stderr "Error opening socket"] none 1
    else if env.host_ok = false then
      Run.mk [Event.socket, Event.gethostbyname, Event.stderr "Error: no such host"] none 1
    else if env.connect_ok = false then
      Run.mk [Event.socket, Event.gethostbyname, Event.connect,
        Event.stderr "Error connecting to server"] none 1
    else
      let calls := [Event.socket, Event.gethostbyname, Event.connect]
      -- write(sockfd, handshake, strlen(handshake))
      match env.conn.write (lit "ENC_CLIENT") with
      | (false, c1) => Run.mk (calls ++ [Event.stderr "Error sending handshake"]) (some c1) 1
      | (true, c1) =>
        -- read(sockfd, buffer, BUFFER_SIZE - 1) <= 0
        match c1.read (BUFFER_SIZE - 1) with
        | (none, c2) =>
          Run.mk (calls ++ [Event.stderr "Error reading handshake response"]) (some c2) 1
        | (some buffer, c2) =>
          if buffer.length = 0 then
            Run.mk (calls ++ [Event.stderr "Error reading handshake response"]) (some c2) 1
          else if strcmp buffer (lit "ENC_SERVER") ≠ 0 then
            Run.mk (calls ++ [Event.stderr "Error: invalid server response during handshake"])
              (some c2.close) 1
          else
            let plaintext_len : Int := toInt32 (strlen plaintext)
            -- write(sockfd, &plaintext_len, sizeof(int))
            match c2.write (int_bytes plaintext_len) with
            | (false, c3) => Run.mk (calls ++ [Event.stderr "Error sending plaintext length"]) (some c3) 1
            | (true, c3) =>
              -- write(sockfd, plaintext, plaintext_len)
              match c3.write (plaintext.take (toSizeT plaintext_len)) with
              | (false, c4) => Run.mk (calls ++ [Event.stderr "Error sending plaintext"]) (some c4) 1
              | (true, c4) =>
                -- write(sockfd, key, plaintext_len)
                match c4.write (key.take (toSizeT plaintext_len)) with
                | (false, c5) => Run.mk (calls ++ [Event.stderr "Error sending key"]) (some c5) 1
                | (true, c5) =>
                  -- read(sockfd, buffer, BUFFER_SIZE - 1) < 0
                  match c5.read (BUFFER_SIZE - 1) with
                  | (none, c6) => Run.mk (calls ++ [Event.stderr "Error reading ciphertext"]) (some c6) 1
                  | (some result, c6) =>
                    -- printf("%s\n", buffer)
                    Run.mk (calls ++ [Event.stdout (cstr result ++ [10])]) (some c6.close) 0

end EncClient

/-! ## `dec_client.c` -/

namespace DecClient

/-- Constant `#define BUFFER_SIZE 1024` -/
def BUFFER_SIZE : Nat := 1024

/-- Constant `#define ALLOWED_CHARS "ABCDEFGHIJKLMNOPQRSTUVWXYZ "` -/
def ALLOWED_CHARS : List Int := lit "ABCDEFGHIJKLMNOPQRSTUVWXYZ "

/-- Function `void validate_input(const char *text)` of `dec_client.c`: the loop runs over
the characters before the terminating NUL and stops the program at the first
one for which `strchr(ALLOWED_CHARS, text[i])` is `NULL`. -/
def validate_input : List Int → Validation
  | [] => Validation.passed
  | c :: text =>
    if c = 0 then Validation.passed
    else if strchr ALLOWED_CHARS c = none then Validation.rejected
    else validate_input text

/-- Function `main` of `dec_client.c` from the call of `validate_input` on, with `ciphertext`
and `key` the two strings that `read_file` returned. -/
def main (ciphertext key : List Int) (env : Env) : Run :=
  match validate_input ciphertext with
  | Validation.rejected => Run.mk [Event.stderr "Error: input contains bad characters"] none 1
  | Validation.passed =>
    if strlen key < strlen ciphertext then
      Run.mk [Event.stderr "Error: key is too short"] none 1
    else if env.socket_ok = false then
      Run.mk [Event.socket, Event.stderr "Error opening socket"] none 1
    else if env.host_ok = false then
      Run.mk [Event.socket, Event.gethostbyname, Event.stderr "Error: no such host"] none 1
    else if env.connect_ok = false then
      Run.mk [Event.socket, Event.gethostbyname, Event.connect,
        Event.stderr "Error connecting to server"] none 1
    else
      let calls := [Event.socket, Event.gethostbyname, Event.connect]
      -- write(sockfd, handshake, strlen(handshake))
      match env.conn.write (lit "DEC_CLIENT") with
      | (false, c1) => Run.mk (calls ++ [Event.stderr "Error sending handshake"]) (some c1) 1
      | (true, c1) =>
        -- read(sockfd, buffer, BUFFER_SIZE - 1) <= 0
        match c1.read (BUFFER_SIZE - 1) with
        | (none, c2) =>
          Run.mk (calls ++ [Event.stderr "Error reading handshake response"]) (some c2) 1
        | (some buffer, c2) =>
          if buffer.length = 0 then
            Run.mk (calls ++ [Event.stderr "Error reading handshake response"]) (some c2) 1
          else if strcmp buffer (lit "DEC_SERVER") ≠ 0 then
            Run.mk (calls ++ [Event.stderr "Error: invalid server response during handshake"])
              (some c2.close) 1
          else
            let ciphertext_len : Int := toInt32 (strlen ciphertext)
            -- write(sockfd, &ciphertext_len, sizeof(int))
            match c2.write (int_bytes ciphertext_len) with
            | (false, c3) => Run.mk (calls ++ [Event.stderr "Error sending ciphertext length"]) (some c3) 1
            | (true, c3) =>
              -- write(sockfd, ciphertext, ciphertext_len)
              match c3.write (ciphertext.take (toSizeT ciphertext_len)) with
              | (false, c4) => Run.mk (calls ++ [Event.stderr "Error sending ciphertext"]) (some c4) 1
              | (true, c4) =>
                -- write(sockfd, key, ciphertext_len)
                match c4.write (key.take (toSizeT ciphertext_len)) with
                | (false, c5) => Run.mk (calls ++ [Event.stderr "Error sending key"]) (some c5) 1
                | (true, c5) =>
                  -- read(sockfd, buffer, BUFFER_SIZE - 1) < 0
                  match c5.read (BUFFER_SIZE - 1) with
                  | (none, c6) => Run.mk (calls ++ [Event.stderr "Error reading plaintext"]) (some c6) 1
                  | (some result, c6) =>
                    -- printf("%s\n", buffer)
                    Run.mk (calls ++ [Event.stdout (cstr result ++ [10])]) (some c6.close) 0

end DecClient

/-! ## The specification's codec and per-position transforms

These definitions follow the words of the specification (sections 3, 4.1 and
4.2), not the code; the theorems below compare the code with them. -/

namespace Spec

/-- The alphabet: the fixed ordered set of the 27 symbols `A` to `Z` and space. -/
def alphabet : List Int := lit "ABCDEFGHIJKLMNOPQRSTUVWXYZ "

/-- The codec's `indexOf`: the position of the symbol in the alphabet, `A` to `Z`
being 0 to 25 and space 26; `none` is the failure `InvalidSymbol`. -/
def indexOf (symbol : Int) : Option Nat :=
  if symbol ∈ alphabet then some (alphabet.indexOf symbol) else none

/-- The codec's `symbolOf`, the inverse of `indexOf`: the symbol at a position
0 to 26, undefined (`none`) outside that range. -/
def symbolOf (index : Nat) : Option Int := alphabet.get? index

/-- The symbol `symbolOf((indexOf(p) + indexOf(k)) mod 27)` of the specification's
`encrypt`. -/
def encryptSymbol (p k : Int) : Option Int :=
  (indexOf p).bind fun a => (indexOf k).bind fun b => symbolOf ((a + b) % 27)

/-- The symbol `symbolOf((indexOf(c) - indexOf(k) + 27) mod 27)` of the
specification's `decrypt`. -/
def decryptSymbol (c k : Int) : Option Int :=
  (indexOf c).bind fun a => (indexOf k).bind fun b =>
    symbolOf (((a : Int) - (b : Int) + 27) % 27).toNat

end Spec

/-! # Theorems

## Strings -/

theorem alphabet_nul_free : ∀ c ∈ Spec.alphabet, c ≠ 0 := by decide

theorem nul_free_of_alphabet {s : List Int} (h : ∀ c ∈ s, c ∈ Spec.alphabet) :
    ∀ c ∈ s, c ≠ 0 :=
  fun c hc => alphabet_nul_free c (h c hc)

theorem cstr_of_nul_free {s : List Int} (h : ∀ c ∈ s, c ≠ 0) : cstr s = s := by
  induction s with
  | nil => rfl
  | cons a t ih =>
    have ha : a ≠ 0 := h a (List.mem_cons_self a t)
    have ht : cstr t = t := ih (fun c hc => h c (List.mem_cons_of_mem a hc))
    unfold cstr at ht ⊢
    rw [List.takeWhile_cons, ht]
    simp [ha]

theorem strlen_of_nul_free {s : List Int} (h : ∀ c ∈ s, c ≠ 0) : strlen s = s.length := by
  induction s with
  | nil => rfl
  | cons a t ih =>
    have ha : a ≠ 0 := h a (List.mem_cons_self a t)
    simp [strlen, ha, ih (fun c hc => h c (List.mem_cons_of_mem a hc))]

/-! ## The specification's codec -/

theorem spec_indexOf_values :
    (∀ n ∈ List.range 26, Spec.indexOf (chr 'A' + (n : Int)) = some n)
      ∧ Spec.indexOf (chr 'Z') = some 25 ∧ Spec.indexOf (chr ' ') = some 26
      ∧ Spec.indexOf 0 = none ∧ Spec.indexOf (chr 'a') = none := by
  decide

theorem spec_symbolOf_indexOf : ∀ s ∈ Spec.alphabet,
    (Spec.indexOf s).bind Spec.symbolOf = some s := by
  decide

/-! ## The transforms, one character at a time -/

theorem tmod27_bounds (a : Int) : -27 < Int.tmod a 27 ∧ Int.tmod a 27 < 27 := by
  rcases a with m | m
  · have h : Int.tmod (Int.ofNat m) 27 = ((m % 27 : Nat) : Int) := rfl
    rw [h]; omega
  · have h : Int.tmod (Int.negSucc m) 27 = -(((m + 1) % 27 : Nat) : Int) := rfl
    rw [h]; omega

theorem encrypt_char_ne_zero (p k : Int) : EncServer.encrypt_char p k ≠ 0 := by
  unfold EncServer.encrypt_char
  simp only [EncServer.CHAR_COUNT]
  generalize (if p = chr ' ' then (26 : Int) else p - chr 'A')
    + (if k = chr ' ' then (26 : Int) else k - chr 'A') = x
  have hb := tmod27_bounds x
  have hA : chr 'A' = 65 := by decide
  have hS : chr ' ' = 32 := by decide
  rw [hA, hS]
  unfold toChar
  split <;> omega

set_option maxRecDepth 100000 in
theorem decrypt_encrypt_char : ∀ p ∈ Spec.alphabet, ∀ k ∈ Spec.alphabet,
    DecServer.decrypt_char (EncServer.encrypt_char p k) k = some p := by decide

set_option maxRecDepth 100000 in
theorem encrypt_char_spec : ∀ p ∈ Spec.alphabet, ∀ k ∈ Spec.alphabet,
    Spec.encryptSymbol p k = some (EncServer.encrypt_char p k) := by decide

set_option maxRecDepth 100000 in
theorem decrypt_char_spec : ∀ c ∈ Spec.alphabet, ∀ k ∈ Spec.alphabet,
    DecServer.decrypt_char c k = Spec.decryptSymbol c k
      ∧ (DecServer.decrypt_char c k).isSome = true := by decide

/-! ## The transforms on strings -/

theorem encrypt_text_cons (p k : Int) (ps ks : List Int) (hp : p ≠ 0) :
    EncServer.encrypt_text (p :: ps) (k :: ks)
      = EncServer.encrypt_char p k :: EncServer.encrypt_text ps ks := by
  simp [EncServer.encrypt_text, hp]

theorem encrypt_text_nul_free (P K : List Int) : ∀ c ∈ EncServer.encrypt_text P K, c ≠ 0 := by
  induction P generalizing K with
  | nil => simp [EncServer.encrypt_text]
  | cons p ps ih =>
    intro c hc
    unfold EncServer.encrypt_text at hc
    split at hc
    · simp at hc
    · rcases List.mem_cons.mp hc with h | h
      · rw [h]; exact encrypt_char_ne_zero _ _
      · exact ih _ c h

theorem encrypt_text_length (P K : List Int) :
    (EncServer.encrypt_text P K).length = strlen P := by
  induction P generalizing K with
  | nil => rfl
  | cons p ps ih =>
    unfold EncServer.encrypt_text strlen
    split
    · rfl
    · simp [ih]

theorem encrypt_text_take (P K : List Int) :
    EncServer.encrypt_text P (K.take P.length) = EncServer.encrypt_text P K := by
  induction P generalizing K with
  | nil => rfl
  | cons p ps ih =>
    cases K with
    | nil => rfl
    | cons k ks =>
      by_cases hp : p = 0
      · simp [EncServer.encrypt_text, hp]
      · simp [EncServer.encrypt_text, hp, ih ks]

theorem decrypt_loop_take (C K : List Int) :
    DecServer.decrypt_loop C (K.take C.length) = DecServer.decrypt_loop C K := by
  induction C generalizing K with
  | nil => rfl
  | cons c cs ih =>
    cases K with
    | nil => rfl
    | cons k ks => simp [DecServer.decrypt_loop, ih ks]

theorem decrypt_loop_encrypt_text (P K : List Int) (hP : ∀ c ∈ P, c ∈ Spec.alphabet)
    (hK : ∀ c ∈ K, c ∈ Spec.alphabet) (hlen : P.length ≤ K.length) :
    DecServer.decrypt_loop (EncServer.encrypt_text P K) K = some P := by
  induction P generalizing K with
  | nil => rfl
  | cons p ps ih =>
    cases K with
    | nil => simp at hlen
    | cons k ks =>
      have hp : p ∈ Spec.alphabet := hP p (List.mem_cons_self p ps)
      have hk : k ∈ Spec.alphabet := hK k (List.mem_cons_self k ks)
      have hps : ∀ c ∈ ps, c ∈ Spec.alphabet := fun c hc => hP c (List.mem_cons_of_mem p hc)
      have hks : ∀ c ∈ ks, c ∈ Spec.alphabet := fun c hc => hK c (List.mem_cons_of_mem k hc)
      have hl : ps.length ≤ ks.length := by simpa using hlen
      rw [encrypt_text_cons p k ps ks (alphabet_nul_free p hp)]
      simp [DecServer.decrypt_loop, decrypt_encrypt_char p hp k hk, ih ks hps hks hl]

theorem encrypt_text_getElem (P K : List Int) (hP : ∀ c ∈ P, c ∈ Spec.alphabet)
    (hK : ∀ c ∈ K, c ∈ Spec.alphabet) (hlen : P.length ≤ K.length) (i : Nat)
    (hi : i < P.length) :
    (EncServer.encrypt_text P K)[i]? = Spec.encryptSymbol (P.getD i 0) (K.getD i 0) := by
  induction P generalizing K i with
  | nil => simp at hi
  | cons p ps ih =>
    cases K with
    | nil => simp at hlen
    | cons k ks =>
      have hp : p ∈ Spec.alphabet := hP p (List.mem_cons_self p ps)
      have hk : k ∈ Spec.alphabet := hK k (List.mem_cons_self k ks)
      rw [encrypt_text_cons p k ps ks (alphabet_nul_free p hp)]
      cases i with
      | zero => simp [encrypt_char_spec p hp k hk]
      | succ j =>
        have hps : ∀ c ∈ ps, c ∈ Spec.alphabet := fun c hc => hP c (List.mem_cons_of_mem p hc)
        have hks : ∀ c ∈ ks, c ∈ Spec.alphabet := fun c hc => hK c (List.mem_cons_of_mem k hc)
        have hl : ps.length ≤ ks.length := by simpa using hlen
        have hj : j < ps.length := by simpa using hi
        simpa using ih ks hps hks hl j hj

theorem decrypt_loop_spec (C K : List Int) (hC : ∀ c ∈ C, c ∈ Spec.alphabet)
    (hK : ∀ c ∈ K, c ∈ Spec.alphabet) (hlen : C.length ≤ K.length) :
    ∃ R, DecServer.decrypt_loop C K = some R ∧ R.length = C.length
      ∧ ∀ i, i < C.length → R[i]? = Spec.decryptSymbol (C.getD i 0) (K.getD i 0) := by
  induction C generalizing K with
  | nil => exact ⟨[], rfl, rfl, fun i hi => by simp at hi⟩
  | cons c cs ih =>
    cases K with
    | nil => simp at hlen
    | cons k ks =>
      have hc : c ∈ Spec.alphabet := hC c (List.mem_cons_self c cs)
      have hk : k ∈ Spec.alphabet := hK k (List.mem_cons_self k ks)
      have hcs : ∀ x ∈ cs, x ∈ Spec.alphabet := fun x hx => hC x (List.mem_cons_of_mem c hx)
      have hks : ∀ x ∈ ks, x ∈ Spec.alphabet := fun x hx => hK x (List.mem_cons_of_mem k hx)
      have hl : cs.length ≤ ks.length := by simpa using hlen
      obtain ⟨R, hR, hRlen, hRi⟩ := ih ks hcs hks hl
      obtain ⟨hspec, hsome⟩ := decrypt_char_spec c hc k hk
      obtain ⟨p, hp⟩ := Option.isSome_iff_exists.mp hsome
      refine ⟨p :: R, ?_, by simp [hRlen], ?_⟩
      · simp [DecServer.decrypt_loop, hp, hR]
      · intro i hi
        cases i with
        | zero => simp [← hspec, hp]
        | succ j =>
          have hj : j < cs.length := by simpa using hi
          simpa using hRi j hj

/-! ## The claims about the transforms -/

/-- C1: for every payload `P` and key `K` over the 27-symbol alphabet with
`length K ≥ length P`, `decrypt_message` of the decryption server, applied to
the output of `encrypt_text` of the encryption server under the same key,
returns exactly `P`. -/
theorem decrypt_message_encrypt_text (P K : List Int) (hP : ∀ c ∈ P, c ∈ Spec.alphabet)
    (hK : ∀ c ∈ K, c ∈ Spec.alphabet) (hlen : P.length ≤ K.length) :
    DecServer.decrypt_message (EncServer.encrypt_text P K) K = some P := by
  unfold DecServer.decrypt_message
  rw [cstr_of_nul_free (encrypt_text_nul_free P K)]
  exact decrypt_loop_encrypt_text P K hP hK hlen

/-- Witness of C1, the scenario of the specification: `HELLO WORLD` under the key
`XMCKLXMCKLX` encrypts to `DQNVZWHQAW ` (with a final space), and decrypting the
encryption gives back `HELLO WORLD`. -/
theorem decrypt_message_encrypt_text_witness :
    ((∀ c ∈ lit "HELLO WORLD", c ∈ Spec.alphabet)
      ∧ (∀ c ∈ lit "XMCKLXMCKLX", c ∈ Spec.alphabet)
      ∧ (lit "HELLO WORLD").length ≤ (lit "XMCKLXMCKLX").length)
    ∧ EncServer.encrypt_text (lit "HELLO WORLD") (lit "XMCKLXMCKLX") = lit "DQNVZWHQAW "
    ∧ DecServer.decrypt_message
        (EncServer.encrypt_text (lit "HELLO WORLD") (lit "XMCKLXMCKLX")) (lit "XMCKLXMCKLX")
      = some (lit "HELLO WORLD") :=
  ⟨⟨by decide, by decide, by decide⟩, by decide,
    decrypt_message_encrypt_text (lit "HELLO WORLD") (lit "XMCKLXMCKLX")
      (by decide) (by decide) (by decide)⟩

/-- C2: for every payload `P` and key `K` over the alphabet with
`length K ≥ length P`, `encrypt_text P K` has exactly `length P` symbols and its
`i`-th symbol is `symbolOf((indexOf(P[i]) + indexOf(K[i])) mod 27)`, with
`indexOf` sending `A`..`Z` to 0..25 and space to 26. -/
theorem encrypt_text_spec (P K : List Int) (hP : ∀ c ∈ P, c ∈ Spec.alphabet)
    (hK : ∀ c ∈ K, c ∈ Spec.alphabet) (hlen : P.length ≤ K.length) :
    (EncServer.encrypt_text P K).length = P.length
      ∧ ∀ i, i < P.length →
          (EncServer.encrypt_text P K)[i]? = Spec.encryptSymbol (P.getD i 0) (K.getD i 0) := by
  refine ⟨?_, fun i hi => encrypt_text_getElem P K hP hK hlen i hi⟩
  rw [encrypt_text_length, strlen_of_nul_free (nul_free_of_alphabet hP)]

/-- Witness of C2 at the payload `HELLO WORLD` and the key `XMCKLXMCKLX`. -/
theorem encrypt_text_spec_witness :
    ((∀ c ∈ lit "HELLO WORLD", c ∈ Spec.alphabet)
      ∧ (∀ c ∈ lit "XMCKLXMCKLX", c ∈ Spec.alphabet)
      ∧ (lit "HELLO WORLD").length ≤ (lit "XMCKLXMCKLX").length)
    ∧ (EncServer.encrypt_text (lit "HELLO WORLD") (lit "XMCKLXMCKLX")).length
        = (lit "HELLO WORLD").length
    ∧ ∀ i, i < (lit "HELLO WORLD").length →
        (EncServer.encrypt_text (lit "HELLO WORLD") (lit "XMCKLXMCKLX"))[i]?
          = Spec.encryptSymbol ((lit "HELLO WORLD").getD i 0) ((lit "XMCKLXMCKLX").getD i 0) :=
  ⟨⟨by decide, by decide, by decide⟩,
    encrypt_text_spec (lit "HELLO WORLD") (lit "XMCKLXMCKLX") (by decide) (by decide) (by decide)⟩

/-- C3: for every ciphertext `C` and key `K` over the alphabet with
`length K ≥ length C`, `decrypt_message C K` returns a string of exactly
`length C` symbols whose `i`-th symbol is
`symbolOf((indexOf(C[i]) - indexOf(K[i]) + 27) mod 27)`, with `indexOf` the
position in `ABCDEFGHIJKLMNOPQRSTUVWXYZ ` (space last). -/
theorem decrypt_message_spec (C K : List Int) (hC : ∀ c ∈ C, c ∈ Spec.alphabet)
    (hK : ∀ c ∈ K, c ∈ Spec.alphabet) (hlen : C.length ≤ K.length) :
    ∃ R, DecServer.decrypt_message C K = some R ∧ R.length = C.length
      ∧ ∀ i, i < C.length → R[i]? = Spec.decryptSymbol (C.getD i 0) (K.getD i 0) := by
  unfold DecServer.decrypt_message
  rw [cstr_of_nul_free (nul_free_of_alphabet hC)]
  exact decrypt_loop_spec C K hC hK hlen

/-- Witness of C3 at the ciphertext `DQNVZWHQAW ` and the key `XMCKLXMCKLX`. -/
theorem decrypt_message_spec_witness :
    ((∀ c ∈ lit "DQNVZWHQAW ", c ∈ Spec.alphabet)
      ∧ (∀ c ∈ lit "XMCKLXMCKLX", c ∈ Spec.alphabet)
      ∧ (lit "DQNVZWHQAW ").length ≤ (lit "XMCKLXMCKLX").length)
    ∧ ∃ R, DecServer.decrypt_message (lit "DQNVZWHQAW ") (lit "XMCKLXMCKLX") = some R
      ∧ R.length = (lit "DQNVZWHQAW ").length
      ∧ ∀ i, i < (lit "DQNVZWHQAW ").length →
          R[i]? = Spec.decryptSymbol ((lit "DQNVZWHQAW ").getD i 0)
            ((lit "XMCKLXMCKLX").getD i 0) :=
  ⟨⟨by decide, by decide, by decide⟩,
    decrypt_message_spec (lit "DQNVZWHQAW ") (lit "XMCKLXMCKLX") (by decide) (by decide)
      (by decide)⟩

/-- C10: for every payload `P` over the alphabet and every two keys `K1`, `K2`
of length at least `length P` that agree on their first `length P` symbols,
`encrypt_text` and `decrypt_message` give the same result under `K1` and under
`K2`: only the first `length P` key symbols are consumed. -/
theorem transforms_ignore_trailing_key (P K1 K2 : List Int)
    (hP : ∀ c ∈ P, c ∈ Spec.alphabet) (h1 : P.length ≤ K1.length) (h2 : P.length ≤ K2.length)
    (hagree : K1.take P.length = K2.take P.length) :
    EncServer.encrypt_text P K1 = EncServer.encrypt_text P K2
      ∧ DecServer.decrypt_message P K1 = DecServer.decrypt_message P K2 := by
  constructor
  · rw [← encrypt_text_take P K1, ← encrypt_text_take P K2, hagree]
  · unfold DecServer.decrypt_message
    rw [cstr_of_nul_free (nul_free_of_alphabet hP)]
    rw [← decrypt_loop_take P K1, ← decrypt_loop_take P K2, hagree]

/-- Witness of C10: the key `XMCKLXMCKLX` and the same key followed by `QQ Z`
transform `HELLO WORLD` alike. -/
theorem transforms_ignore_trailing_key_witness :
    ((∀ c ∈ lit "HELLO WORLD", c ∈ Spec.alphabet)
      ∧ (lit "HELLO WORLD").length ≤ (lit "XMCKLXMCKLX").length
      ∧ (lit "HELLO WORLD").length ≤ (lit "XMCKLXMCKLXQQ Z").length
      ∧ (lit "XMCKLXMCKLX").take (lit "HELLO WORLD").length
          = (lit "XMCKLXMCKLXQQ Z").take (lit "HELLO WORLD").length)
    ∧ EncServer.encrypt_text (lit "HELLO WORLD") (lit "XMCKLXMCKLX")
        = EncServer.encrypt_text (lit "HELLO WORLD") (lit "XMCKLXMCKLXQQ Z")
    ∧ DecServer.decrypt_message (lit "HELLO WORLD") (lit "XMCKLXMCKLX")
        = DecServer.decrypt_message (lit "HELLO WORLD") (lit "XMCKLXMCKLXQQ Z") :=
  ⟨⟨by decide, by decide, by decide, by decide⟩,
    transforms_ignore_trailing_key (lit "HELLO WORLD") (lit "XMCKLXMCKLX")
      (lit "XMCKLXMCKLXQQ Z") (by decide) (by decide) (by decide) (by decide)⟩

/-! ## Validation in the clients -/

theorem strchr_eq_none_iff (s : List Int) (hs : ∀ x ∈ s, x ≠ 0) (c : Int) (hc : c ≠ 0) :
    strchr s c = none ↔ c ∉ s := by
  induction s with
  | nil => simp [strchr, hc]
  | cons x t ih =>
    have hx : x ≠ 0 := hs x (List.mem_cons_self x t)
    have ht := ih (fun y hy => hs y (List.mem_cons_of_mem x hy))
    unfold strchr
    by_cases hxc : x = c
    · simp [hxc]
    · have hcx : ¬ c = x := fun h => hxc h.symm
      simp [hxc, hx, ht, hcx]

theorem enc_validate_input_iff (text : List Int) :
    EncClient.validate_input text = Validation.rejected ↔ ∃ c ∈ cstr text, c ∉ Spec.alphabet := by
  induction text with
  | nil => simp [EncClient.validate_input, cstr]
  | cons a t ih =>
    unfold EncClient.validate_input
    by_cases ha : a = 0
    · simp [ha, cstr]
    · have hstr := strchr_eq_none_iff EncClient.ALLOWED_CHARS alphabet_nul_free a ha
      have hcs : cstr (a :: t) = a :: cstr t := by simp [cstr, List.takeWhile_cons, ha]
      rw [hcs]
      by_cases hmem : a ∈ Spec.alphabet
      · have : ¬ strchr EncClient.ALLOWED_CHARS a = none := fun h => (hstr.mp h) hmem
        simp [ha, this, ih, hmem]
      · have : strchr EncClient.ALLOWED_CHARS a = none := hstr.mpr hmem
        simp [ha, this, hmem]

theorem dec_validate_input_iff (text : List Int) :
    DecClient.validate_input text = Validation.rejected ↔ ∃ c ∈ cstr text, c ∉ Spec.alphabet := by
  induction text with
  | nil => simp [DecClient.validate_input, cstr]
  | cons a t ih =>
    unfold DecClient.validate_input
    by_cases ha : a = 0
    · simp [ha, cstr]
    · have hstr := strchr_eq_none_iff DecClient.ALLOWED_CHARS alphabet_nul_free a ha
      have hcs : cstr (a :: t) = a :: cstr t := by simp [cstr, List.takeWhile_cons, ha]
      rw [hcs]
      by_cases hmem : a ∈ Spec.alphabet
      · have : ¬ strchr DecClient.ALLOWED_CHARS a = none := fun h => (hstr.mp h) hmem
        simp [ha, this, ih, hmem]
      · have : strchr DecClient.ALLOWED_CHARS a = none := hstr.mpr hmem
        simp [ha, this, hmem]

theorem enc_main_trace_of_passed (text key : List Int) (env : Env)
    (hv : EncClient.validate_input text = Validation.passed) (hk : ¬ strlen key < strlen text) :
    (EncClient.main text key env).trace.head? = some Event.socket := by
  unfold EncClient.main
  rw [hv]
  simp only [if_neg hk]
  repeat' split
  all_goals rfl

theorem dec_main_trace_of_passed (text key : List Int) (env : Env)
    (hv : DecClient.validate_input text = Validation.passed) (hk : ¬ strlen key < strlen text) :
    (DecClient.main text key env).trace.head? = some Event.socket := by
  unfold DecClient.main
  rw [hv]
  simp only [if_neg hk]
  repeat' split
  all_goals rfl

theorem enc_main_connects (text key : List Int) (env : Env)
    (hv : EncClient.validate_input text = Validation.passed) (hk : ¬ strlen key < strlen text)
    (hs : env.socket_ok = true) (hh : env.host_ok = true) (hc : env.connect_ok = true) :
    [Event.socket, Event.gethostbyname, Event.connect] <+: (EncClient.main text key env).trace
      ∧ (EncClient.main text key env).conn.isSome = true := by
  unfold EncClient.main
  rw [hv]
  simp only [if_neg hk, hs, hh, hc, Bool.true_eq_false, if_false]
  repeat' split
  all_goals simp

theorem dec_main_connects (text key : List Int) (env : Env)
    (hv : DecClient.validate_input text = Validation.passed) (hk : ¬ strlen key < strlen text)
    (hs : env.socket_ok = true) (hh : env.host_ok = true) (hc : env.connect_ok = true) :
    [Event.socket, Event.gethostbyname, Event.connect] <+: (DecClient.main text key env).trace
      ∧ (DecClient.main text key env).conn.isSome = true := by
  unfold DecClient.main
  rw [hv]
  simp only [if_neg hk, hs, hh, hc, Bool.true_eq_false, if_false]
  repeat' split
  all_goals simp

theorem validation_passed_of_not_rejected {v : Validation} (h : ¬ v = Validation.rejected) :
    v = Validation.passed := by
  cases v
  · rfl
  · exact absurd rfl h

theorem enc_validate_input_alphabet (P : List Int) (hP : ∀ c ∈ P, c ∈ Spec.alphabet) :
    EncClient.validate_input P = Validation.passed := by
  apply validation_passed_of_not_rejected
  rw [enc_validate_input_iff, cstr_of_nul_free (nul_free_of_alphabet hP)]
  rintro ⟨c, hc, hn⟩
  exact hn (hP c hc)

theorem dec_validate_input_alphabet (P : List Int) (hP : ∀ c ∈ P, c ∈ Spec.alphabet) :
    DecClient.validate_input P = Validation.passed := by
  apply validation_passed_of_not_rejected
  rw [dec_validate_input_iff, cstr_of_nul_free (nul_free_of_alphabet hP)]
  rintro ⟨c, hc, hn⟩
  exact hn (hP c hc)

theorem enc_main_rejected_iff (text key : List Int) (env : Env) :
    EncClient.main text key env
        = Run.mk [Event.stderr "Error: input contains bad characters"] none 1
      ↔ EncClient.validate_input text = Validation.rejected := by
  constructor
  · intro hrun
    by_contra hv
    have hp := validation_passed_of_not_rejected hv
    by_cases hk : strlen key < strlen text
    · have hm : EncClient.main text key env
          = Run.mk [Event.stderr "Error: key is too short"] none 1 := by
        unfold EncClient.main
        rw [hp]
        simp only [if_pos hk]
      rw [hm] at hrun
      exact absurd hrun (by decide)
    · have hh := enc_main_trace_of_passed text key env hp hk
      rw [hrun] at hh
      exact absurd hh (by decide)
  · intro hv
    unfold EncClient.main
    rw [hv]

theorem dec_main_rejected_iff (text key : List Int) (env : Env) :
    DecClient.main text key env
        = Run.mk [Event.stderr "Error: input contains bad characters"] none 1
      ↔ DecClient.validate_input text = Validation.rejected := by
  constructor
  · intro hrun
    by_contra hv
    have hp := validation_passed_of_not_rejected hv
    by_cases hk : strlen key < strlen text
    · have hm : DecClient.main text key env
          = Run.mk [Event.stderr "Error: key is too short"] none 1 := by
        unfold DecClient.main
        rw [hp]
        simp only [if_pos hk]
      rw [hm] at hrun
      exact absurd hrun (by decide)
    · have hh := dec_main_trace_of_passed text key env hp hk
      rw [hrun] at hh
      exact absurd hh (by decide)
  · intro hv
    unfold DecClient.main
    rw [hv]

theorem enc_main_short_key_iff (P K : List Int) (env : Env)
    (hv : EncClient.validate_input P = Validation.passed) :
    EncClient.main P K env = Run.mk [Event.stderr "Error: key is too short"] none 1
      ↔ strlen K < strlen P := by
  constructor
  · intro hrun
    by_contra hk
    have hh := enc_main_trace_of_passed P K env hv hk
    rw [hrun] at hh
    exact absurd hh (by decide)
  · intro hk
    unfold EncClient.main
    rw [hv]
    simp only [if_pos hk]

theorem dec_main_short_key_iff (P K : List Int) (env : Env)
    (hv : DecClient.validate_input P = Validation.passed) :
    DecClient.main P K env = Run.mk [Event.stderr "Error: key is too short"] none 1
      ↔ strlen K < strlen P := by
  constructor
  · intro hrun
    by_contra hk
    have hh := dec_main_trace_of_passed P K env hv hk
    rw [hrun] at hh
    exact absurd hh (by decide)
  · intro hk
    unfold DecClient.main
    rw [hv]
    simp only [if_pos hk]

/-! ## The claims about the clients' validation -/

/-- C5: in both clients, for every payload text (the C string in the buffer
`text`), `validate_input` rejects it exactly when it contains a symbol outside
`A`..`Z` and space, and the run of the client is then the one that only prints
`Error: input contains bad characters` and exits with status 1: no socket is
created, no connection is made.  A payload made only of alphabet symbols
passes. -/
theorem validate_input_rejects_iff (text key : List Int) (env : Env) :
    (EncClient.validate_input text = Validation.rejected
        ↔ ∃ c ∈ cstr text, c ∉ Spec.alphabet)
    ∧ (EncClient.main text key env
          = Run.mk [Event.stderr "Error: input contains bad characters"] none 1
        ↔ ∃ c ∈ cstr text, c ∉ Spec.alphabet)
    ∧ (DecClient.validate_input text = Validation.rejected
        ↔ ∃ c ∈ cstr text, c ∉ Spec.alphabet)
    ∧ (DecClient.main text key env
          = Run.mk [Event.stderr "Error: input contains bad characters"] none 1
        ↔ ∃ c ∈ cstr text, c ∉ Spec.alphabet) :=
  ⟨enc_validate_input_iff text,
    (enc_main_rejected_iff text key env).trans (enc_validate_input_iff text),
    dec_validate_input_iff text,
    (dec_main_rejected_iff text key env).trans (dec_validate_input_iff text)⟩

/-- C6: in both clients, for every payload `P` over the alphabet and every key
`K`, the run is the one that only prints `Error: key is too short` and exits
with status 1 (no socket created, no connection made) exactly when
`length K < length P`; when `length K ≥ length P` the client goes on to call
`socket()`, and to connect when the operating system lets it. -/
theorem key_too_short_iff (P K : List Int) (env : Env) (hP : ∀ c ∈ P, c ∈ Spec.alphabet) :
    ((EncClient.main P K env = Run.mk [Event.stderr "Error: key is too short"] none 1
        ↔ strlen K < P.length)
      ∧ (P.length ≤ strlen K →
          (EncClient.main P K env).trace.head? = some Event.socket
          ∧ (env.socket_ok = true → env.host_ok = true → env.connect_ok = true →
              [Event.socket, Event.gethostbyname, Event.connect]
                <+: (EncClient.main P K env).trace
              ∧ (EncClient.main P K env).conn.isSome = true)))
    ∧ ((DecClient.main P K env = Run.mk [Event.stderr "Error: key is too short"] none 1
        ↔ strlen K < P.length)
      ∧ (P.length ≤ strlen K →
          (DecClient.main P K env).trace.head? = some Event.socket
          ∧ (env.socket_ok = true → env.host_ok = true → env.connect_ok = true →
              [Event.socket, Event.gethostbyname, Event.connect]
                <+: (DecClient.main P K env).trace
              ∧ (DecClient.main P K env).conn.isSome = true))) := by
  have hlen : strlen P = P.length := strlen_of_nul_free (nul_free_of_alphabet hP)
  have he := enc_validate_input_alphabet P hP
  have hd := dec_validate_input_alphabet P hP
  refine ⟨⟨?_, ?_⟩, ⟨?_, ?_⟩⟩
  · rw [← hlen]; exact enc_main_short_key_iff P K env he
  · intro hk
    have hk2 : ¬ strlen K < strlen P := by omega
    exact ⟨enc_main_trace_of_passed P K env he hk2, enc_main_connects P K env he hk2⟩
  · rw [← hlen]; exact dec_main_short_key_iff P K env hd
  · intro hk
    have hk2 : ¬ strlen K < strlen P := by omega
    exact ⟨dec_main_trace_of_passed P K env hd hk2, dec_main_connects P K env hd hk2⟩

/-- Witness of C6 at the payload `HELLO WORLD`: the ten-symbol key `XMCKLXMCKL`
is too short, and the run of each client is the key-too-short one. -/
theorem key_too_short_iff_witness :
    (∀ c ∈ lit "HELLO WORLD", c ∈ Spec.alphabet)
    ∧ strlen (lit "XMCKLXMCKL") < (lit "HELLO WORLD").length
    ∧ EncClient.main (lit "HELLO WORLD") (lit "XMCKLXMCKL")
        (Env.mk true true true (Conn.ofSegments []))
      = Run.mk [Event.stderr "Error: key is too short"] none 1
    ∧ DecClient.main (lit "HELLO WORLD") (lit "XMCKLXMCKL")
        (Env.mk true true true (Conn.ofSegments []))
      = Run.mk [Event.stderr "Error: key is too short"] none 1 :=
  ⟨by decide, by decide,
    (key_too_short_iff (lit "HELLO WORLD") (lit "XMCKLXMCKL")
      (Env.mk true true true (Conn.ofSegments [])) (by decide)).1.1.mpr (by decide),
    (key_too_short_iff (lit "HELLO WORLD") (lit "XMCKLXMCKL")
      (Env.mk true true true (Conn.ofSegments [])) (by decide)).2.1.mpr (by decide)⟩

/-! ## The connection handlers -/

theorem strcmp_eq_zero_iff (a b : List Int) : strcmp a b = 0 ↔ cstr a = cstr b := by
  induction a generalizing b with
  | nil =>
    cases b with
    | nil => simp [strcmp]
    | cons y t =>
      by_cases hy : y = 0
      · simp [strcmp, cstr, hy]
      · simp [strcmp, cstr, List.takeWhile_cons, hy]
  | cons x s ih =>
    cases b with
    | nil =>
      by_cases hx : x = 0
      · simp [strcmp, cstr, hx]
      · simp [strcmp, cstr, List.takeWhile_cons, hx]
    | cons y t =>
      unfold strcmp
      by_cases hxy : x = y
      · subst hxy
        by_cases hx : x = 0
        · simp [cstr, hx]
        · have := ih t
          unfold cstr at this ⊢
          simp [List.takeWhile_cons, hx, this]
      · have hne : ¬ ((if x % 256 < y % 256 then (-1 : Int) else 1) = 0) := by
          split <;> decide
        have hxy2 : x ≠ y := hxy
        rw [if_pos hxy2]
        constructor
        · intro h
          exact absurd h hne
        · intro h
          exfalso
          unfold cstr at h
          by_cases hx : x = 0
          · have hy : ¬ y = 0 := fun e => hxy (hx.trans e.symm)
            simp [List.takeWhile_cons, hx, hy] at h
          · by_cases hy : y = 0
            · simp [List.takeWhile_cons, hx, hy] at h
            · simp [List.takeWhile_cons, hx, hy] at h
              exact hxy h.1

theorem bytes_int_int_bytes (n : Int) (h0 : -2147483648 ≤ n) (h1 : n < 2147483648) :
    bytes_int (int_bytes n) = n := by
  unfold bytes_int int_bytes toInt32 toChar
  simp only [List.getD_cons_zero, List.getD_cons_succ]
  omega

theorem int_bytes_length (n : Int) : (int_bytes n).length = 4 := rfl

theorem toSizeT_natCast (n : Nat) (h : n < 2147483648) : toSizeT (n : Int) = n := by
  unfold toSizeT
  omega

theorem read_zero (c : Conn) : c.read 0 = (some [], c) := by
  simp [Conn.read]

theorem read_segment (incoming : List (Option (List Int))) (wfail : List Bool)
    (written : List (List Int)) (closed : Bool) (bytes : List Int) (count : Nat)
    (hcount : count ≠ 0) (hlen : bytes.length ≤ count) :
    (Conn.mk (some bytes :: incoming) wfail written closed).read count
      = (some bytes, Conn.mk incoming wfail written closed) := by
  simp [Conn.read, hcount, hlen]

theorem write_ok (incoming : List (Option (List Int))) (written : List (List Int))
    (closed : Bool) (bytes : List Int) :
    (Conn.mk incoming [] written closed).write bytes
      = (true, Conn.mk incoming [] (written ++ [bytes]) closed) := by
  simp [Conn.write]

theorem strlen_le_length (s : List Int) : strlen s ≤ s.length := by
  induction s with
  | nil => simp [strlen]
  | cons a t ih =>
    unfold strlen
    split
    · simp
    · simp [ih]

theorem enc_handle_client_segments (P K : List Int) (hP0 : P ≠ []) (hP : P.length < 1024)
    (hK : K.length = P.length) :
    EncServer.handle_client
        (Conn.mk [some (lit "ENC_CLIENT"), some (int_bytes P.length), some P, some K] [] [] false)
      = Outcome.returned (Conn.mk [] [] (if strlen K < strlen P then [lit "ENC_SERVER"]
          else [lit "ENC_SERVER", EncServer.encrypt_text P K]) true) := by
  have hn0 : P.length ≠ 0 := fun h => hP0 (List.length_eq_zero.mp h)
  have hbi : bytes_int (int_bytes (P.length : Int)) = (P.length : Int) :=
    bytes_int_int_bytes _ (by omega) (by omega)
  have hsz : toSizeT (P.length : Int) = P.length := toSizeT_natCast _ (by omega)
  have h1 := read_segment [some (int_bytes P.length), some P, some K] [] [] false
    (lit "ENC_CLIENT") (EncServer.BUFFER_SIZE - 1) (by decide) (by decide)
  have h2 : (Conn.mk [some (int_bytes P.length), some P, some K] [] [] false).write
      (lit "ENC_SERVER")
      = (true, Conn.mk [some (int_bytes P.length), some P, some K] [] [lit "ENC_SERVER"] false) :=
    write_ok _ _ _ _
  have h3 := read_segment [some P, some K] [] [lit "ENC_SERVER"] false
    (int_bytes P.length) 4 (by decide) (by simp [int_bytes_length])
  have h4 := read_segment [some K] [] [lit "ENC_SERVER"] false P P.length hn0 (Nat.le_refl _)
  have h5 := read_segment [] [] [lit "ENC_SERVER"] false K P.length hn0 (by omega)
  have h6 : (Conn.mk [] [] [lit "ENC_SERVER"] false).write (EncServer.encrypt_text P K)
      = (true, Conn.mk [] [] [lit "ENC_SERVER", EncServer.encrypt_text P K] false) :=
    write_ok _ _ _ _
  have hcmp : ¬ strcmp (lit "ENC_CLIENT") (lit "ENC_CLIENT") ≠ 0 := by decide
  have htake : (EncServer.encrypt_text P K).take (strlen (EncServer.encrypt_text P K))
      = EncServer.encrypt_text P K := by
    rw [strlen_of_nul_free (encrypt_text_nul_free P K), List.take_length]
  have hrange : ¬ ((P.length : Int) < 0 ∨ (EncServer.BUFFER_SIZE : Int) ≤ (P.length : Int)) := by
    simp only [EncServer.BUFFER_SIZE]; push_cast; omega
  have hl4 : ¬ (int_bytes (P.length : Int)).length = 0 := by simp [int_bytes_length]
  have hl4b : ¬ (int_bytes (P.length : Int)).length < 4 := by simp [int_bytes_length]
  have htP : P.take P.length = P := List.take_length P
  have htK : K.take P.length = K := by rw [← hK]; exact List.take_length K
  unfold EncServer.handle_client
  simp only [h1, if_neg hcmp, h2, h3, if_neg hl4, if_neg hl4b, hbi, hsz, h4, if_neg hrange,
    Int.toNat_ofNat, htP, htK, h5]
  by_cases hs : strlen K < strlen P
  · simp only [if_pos hs, Conn.close]
  · simp only [if_neg hs, htake, h6, Conn.close]

theorem enc_handle_client_empty :
    EncServer.handle_client
        (Conn.mk [some (lit "ENC_CLIENT"), some (int_bytes 0)] [] [] false)
      = Outcome.returned (Conn.mk [] [] [lit "ENC_SERVER", []] true) := by
  decide

theorem read_first (c : Conn) (h : List Int) (rest : List (Option (List Int))) (count : Nat)
    (hinc : c.incoming = some h :: rest) (hcount : count ≠ 0) :
    ∃ c1, c.read count = (some (h.take count), c1) ∧ c1.written = c.written
      ∧ c1.wfail = c.wfail := by
  unfold Conn.read
  rw [if_neg hcount, hinc]
  by_cases hl : h.length ≤ count
  · exact ⟨{ c with incoming := rest },
      by simp only [if_pos hl, List.take_of_length_le hl], rfl, rfl⟩
  · exact ⟨{ c with incoming := some (h.drop count) :: rest },
      by simp only [if_neg hl], rfl, rfl⟩

theorem read_written (c : Conn) (count : Nat) : (c.read count).2.written = c.written := by
  unfold Conn.read
  repeat' split
  all_goals rfl

theorem write_written (c : Conn) (bytes : List Int) :
    (c.write bytes).2.written = c.written ∨ (c.write bytes).2.written = c.written ++ [bytes] := by
  unfold Conn.write
  repeat' split
  all_goals simp

theorem write_first (c : Conn) (bytes : List Int) (hw : c.wfail.head? ≠ some true) :
    ∃ c2, c.write bytes = (true, c2) ∧ c2.written = c.written ++ [bytes] := by
  unfold Conn.write
  split
  · exact ⟨_, rfl, rfl⟩
  · exact ⟨_, rfl, rfl⟩
  · rename_i heq
    rw [heq] at hw
    simp at hw

theorem enc_handshake_mismatch (c : Conn) (h : List Int) (rest : List (Option (List Int)))
    (hinc : c.incoming = some h :: rest) (hne : cstr (h.take 1023) ≠ lit "ENC_CLIENT") :
    ∃ c1, EncServer.handle_client c = Outcome.returned c1 ∧ c1.written = c.written
      ∧ c1.closed = true := by
  obtain ⟨c1, hr, hw, _⟩ := read_first c h rest (EncServer.BUFFER_SIZE - 1) hinc (by decide)
  have hcmp : strcmp (h.take 1023) (lit "ENC_CLIENT") ≠ 0 := by
    rw [Ne, strcmp_eq_zero_iff]
    have : cstr (lit "ENC_CLIENT") = lit "ENC_CLIENT" := by decide
    rw [this]
    exact hne
  refine ⟨c1.close, ?_, hw, rfl⟩
  unfold EncServer.handle_client
  rw [hr]
  have h1023 : EncServer.BUFFER_SIZE - 1 = 1023 := rfl
  simp only [h1023, if_pos hcmp]

theorem dec_handshake_mismatch (c : Conn) (h : List Int) (rest : List (Option (List Int)))
    (hinc : c.incoming = some h :: rest) (hne : cstr (h.take 1023) ≠ lit "DEC_CLIENT") :
    ∃ c1, DecServer.handle_client c = Outcome.returned c1 ∧ c1.written = c.written
      ∧ c1.closed = true := by
  obtain ⟨c1, hr, hw, _⟩ := read_first c h rest (DecServer.BUFFER_SIZE - 1) hinc (by decide)
  have hcmp : strcmp (h.take 1023) (lit "DEC_CLIENT") ≠ 0 := by
    rw [Ne, strcmp_eq_zero_iff]
    have : cstr (lit "DEC_CLIENT") = lit "DEC_CLIENT" := by decide
    rw [this]
    exact hne
  refine ⟨c1.close, ?_, hw, rfl⟩
  unfold DecServer.handle_client
  rw [hr]
  have h1023 : DecServer.BUFFER_SIZE - 1 = 1023 := rfl
  simp only [h1023, if_pos hcmp]

theorem written_grows_read {w : List (List Int)} {c c1 : Conn} {count : Nat}
    {r : Option (List Int)} (hp : w <+: c.written) (hr : c.read count = (r, c1)) :
    w <+: c1.written := by
  have hw : c1.written = c.written := by
    have := read_written c count
    rw [hr] at this
    exact this
  rw [hw]
  exact hp

theorem written_grows_write {w : List (List Int)} {c c1 : Conn} {bytes : List Int} {b : Bool}
    (hp : w <+: c.written) (hr : c.write bytes = (b, c1)) : w <+: c1.written := by
  rcases write_written c bytes with h | h
  · rw [hr] at h
    have h2 : c1.written = c.written := h
    rw [h2]
    exact hp
  · rw [hr] at h
    have h2 : c1.written = c.written ++ [bytes] := h
    rw [h2]
    exact hp.trans (List.prefix_append _ _)

theorem enc_handshake_match (c : Conn) (h : List Int) (rest : List (Option (List Int)))
    (hinc : c.incoming = some h :: rest) (heq : cstr (h.take 1023) = lit "ENC_CLIENT")
    (hw : c.wfail.head? ≠ some true) :
    (c.written ++ [lit "ENC_SERVER"]) <+: (EncServer.handle_client c).conn.written := by
  obtain ⟨c1, hr, hw1, hf1⟩ := read_first c h rest (EncServer.BUFFER_SIZE - 1) hinc (by decide)
  obtain ⟨c2, hwr, hw2⟩ := write_first c1 (lit "ENC_SERVER") (by rw [hf1]; exact hw)
  have hcmp : ¬ strcmp (h.take 1023) (lit "ENC_CLIENT") ≠ 0 := by
    rw [Ne, strcmp_eq_zero_iff, heq]
    decide
  have hp2 : (c.written ++ [lit "ENC_SERVER"]) <+: c2.written := by
    rw [hw2, hw1]
  unfold EncServer.handle_client
  rw [hr]
  have h1023 : EncServer.BUFFER_SIZE - 1 = 1023 := rfl
  simp only [h1023, if_neg hcmp, hwr]
  split
  · rename_i c3 h3
    exact (written_grows_read hp2 h3 : _ <+: c3.written)
  · rename_i lenbytes c3 h3
    have hp3 := written_grows_read hp2 h3
    split
    · exact hp3
    · split
      · exact hp3
      · split
        · rename_i c4 h4
          exact written_grows_read hp3 h4
        · rename_i pbytes c4 h4
          have hp4 := written_grows_read hp3 h4
          split
          · exact hp4
          · split
            · rename_i c5 h5
              exact written_grows_read hp4 h5
            · rename_i kbytes c5 h5
              have hp5 := written_grows_read hp4 h5
              split
              · exact hp5
              · split
                · rename_i c6 h6
                  exact written_grows_write hp5 h6
                · rename_i c6 h6
                  exact (written_grows_write hp5 h6 : _ <+: c6.written)

theorem dec_handshake_match (c : Conn) (h : List Int) (rest : List (Option (List Int)))
    (hinc : c.incoming = some h :: rest) (heq : cstr (h.take 1023) = lit "DEC_CLIENT")
    (hw : c.wfail.head? ≠ some true) :
    (c.written ++ [lit "DEC_SERVER"]) <+: (DecServer.handle_client c).conn.written := by
  obtain ⟨c1, hr, hw1, hf1⟩ := read_first c h rest (DecServer.BUFFER_SIZE - 1) hinc (by decide)
  obtain ⟨c2, hwr, hw2⟩ := write_first c1 (lit "DEC_SERVER") (by rw [hf1]; exact hw)
  have hcmp : ¬ strcmp (h.take 1023) (lit "DEC_CLIENT") ≠ 0 := by
    rw [Ne, strcmp_eq_zero_iff, heq]
    decide
  have hp2 : (c.written ++ [lit "DEC_SERVER"]) <+: c2.written := by
    rw [hw2, hw1]
  unfold DecServer.handle_client
  rw [hr]
  have h1023 : DecServer.BUFFER_SIZE - 1 = 1023 := rfl
  simp only [h1023, if_neg hcmp, hwr]
  split
  · rename_i c3 h3
    exact (written_grows_read hp2 h3 : _ <+: c3.written)
  · rename_i lenbytes c3 h3
    have hp3 := written_grows_read hp2 h3
    split
    · exact hp3
    · split
      · exact hp3
      · split
        · rename_i c4 h4
          exact written_grows_read hp3 h4
        · rename_i pbytes c4 h4
          have hp4 := written_grows_read hp3 h4
          split
          · exact hp4
          · split
            · rename_i c5 h5
              exact written_grows_read hp4 h5
            · rename_i kbytes c5 h5
              have hp5 := written_grows_read hp4 h5
              split
              · exact hp5
              · split
                · exact hp5
                · split
                  · rename_i c6 h6
                    exact written_grows_write hp5 h6
                  · rename_i c6 h6
                    exact (written_grows_write hp5 h6 : _ <+: c6.written)

theorem strlen_take (K : List Int) (n : Nat) (h : n ≤ strlen K) : strlen (K.take n) = n := by
  induction K generalizing n with
  | nil =>
    have : n = 0 := by simpa [strlen] using h
    subst this
    rfl
  | cons k ks ih =>
    cases n with
    | zero => rfl
    | succ m =>
      unfold strlen at h
      by_cases hk : k = 0
      · simp [hk] at h
      · simp only [if_neg hk] at h
        have hm : m ≤ strlen ks := by omega
        simp [List.take, strlen, hk, ih m hm]

theorem toInt32_natCast (n : Nat) (h : n < 2147483648) : toInt32 (n : Int) = (n : Int) := by
  unfold toInt32
  omega

theorem read_eof (wfail : List Bool) (written : List (List Int)) (closed : Bool) (count : Nat) :
    (Conn.mk [] wfail written closed).read count = (some [], Conn.mk [] wfail written closed) := by
  unfold Conn.read
  split <;> rfl

theorem enc_client_run (P K reply : List Int) (hP : ∀ c ∈ P, c ∈ Spec.alphabet)
    (hlen : P.length ≤ 1023) (hK : P.length ≤ strlen K) (hr0 : ∀ c ∈ reply, c ≠ 0)
    (hrl : reply.length ≤ 1023) :
    EncClient.main P K (Env.mk true true true (Conn.ofSegments [lit "ENC_SERVER", reply]))
      = Run.mk [Event.socket, Event.gethostbyname, Event.connect, Event.stdout (reply ++ [10])]
          (some (Conn.mk [] [] [lit "ENC_CLIENT", int_bytes P.length, P, K.take P.length] true))
          0 := by
  have hv := enc_validate_input_alphabet P hP
  have hsl : strlen P = P.length := strlen_of_nul_free (nul_free_of_alphabet hP)
  have hk : ¬ strlen K < strlen P := by omega
  have h32 : toInt32 ((P.length : Nat) : Int) = (P.length : Int) := toInt32_natCast _ (by omega)
  have hsz : toSizeT (P.length : Int) = P.length := toSizeT_natCast _ (by omega)
  have htP : P.take P.length = P := List.take_length P
  have hcmp : ¬ strcmp (lit "ENC_SERVER") (lit "ENC_SERVER") ≠ 0 := by decide
  have hl0 : ¬ (lit "ENC_SERVER").length = 0 := by decide
  have hcs : cstr reply = reply := cstr_of_nul_free hr0
  have hwr : ∀ (inc : List (Option (List Int))) (w : List (List Int)) (b : List Int),
      (Conn.mk inc [] w false).write b = (true, Conn.mk inc [] (w ++ [b]) false) :=
    fun inc w b => write_ok inc w false b
  unfold EncClient.main
  rw [hv]
  simp only [if_neg hk, Bool.true_eq_false, if_false]
  by_cases hre : reply = []
  · subst hre
    have hc : Conn.ofSegments [lit "ENC_SERVER", []]
        = Conn.mk [some (lit "ENC_SERVER")] [] [] false := by decide
    have h1 := read_segment [] [] [lit "ENC_CLIENT"] false (lit "ENC_SERVER")
      (EncClient.BUFFER_SIZE - 1) (by decide) (by decide)
    simp only [hc, hwr, List.nil_append, h1, if_neg hl0, if_neg hcmp, hsl, h32, hsz, htP,
      List.cons_append, read_eof, Conn.close]
    rfl
  · have hc : Conn.ofSegments [lit "ENC_SERVER", reply]
        = Conn.mk [some (lit "ENC_SERVER"), some reply] [] [] false := by
      have : lit "ENC_SERVER" ≠ [] := by decide
      simp [Conn.ofSegments, List.filter, this, hre]
    have h1 := read_segment [some reply] [] [lit "ENC_CLIENT"] false (lit "ENC_SERVER")
      (EncClient.BUFFER_SIZE - 1) (by decide) (by decide)
    have h2 := read_segment [] [] [lit "ENC_CLIENT", int_bytes P.length, P, K.take P.length]
      false reply (EncClient.BUFFER_SIZE - 1) (by decide) hrl
    simp only [hc, hwr, List.nil_append, h1, if_neg hl0, if_neg hcmp, hsl, h32, hsz, htP,
      List.cons_append, h2, Conn.close, hcs]

theorem ofSegments_request (tag lenbytes P K : List Int) (ht : tag ≠ []) (hl : lenbytes ≠ [])
    (hP : P ≠ []) (hK : K ≠ []) :
    Conn.ofSegments [tag, lenbytes, P, K]
      = Conn.mk [some tag, some lenbytes, some P, some K] [] [] false := by
  simp [Conn.ofSegments, List.filter, ht, hl, hP, hK]

theorem enc_handle_client_request (P K : List Int) (hP : P.length < 1024)
    (hK : K.length = P.length) :
    EncServer.handle_client (Conn.ofSegments [lit "ENC_CLIENT", int_bytes P.length, P, K])
      = Outcome.returned (Conn.mk [] [] (if strlen K < strlen P then [lit "ENC_SERVER"]
          else [lit "ENC_SERVER", EncServer.encrypt_text P K]) true) := by
  by_cases hP0 : P = []
  · subst hP0
    have hK0 : K = [] := List.length_eq_zero.mp (by simpa using hK)
    subst hK0
    decide
  · have hK0 : K ≠ [] := fun h => hP0 (List.length_eq_zero.mp (by rw [← hK, h]; rfl))
    rw [ofSegments_request _ _ P K (by decide) (by simp [int_bytes]) hP0 hK0]
    exact enc_handle_client_segments P K hP0 hP hK

theorem replicate_ne_nil (n : Nat) (x : Int) (hn : n ≠ 0) : List.replicate n x ≠ [] := by
  cases n with
  | zero => exact absurd rfl hn
  | succ m => simp [List.replicate]

theorem enc_oversized_length (L : Nat) (P K : List Int) (hL : 1024 ≤ L) (hL2 : L < 2147483648)
    (hPl : P.length ≤ L) :
    EncServer.handle_client
        (Conn.mk [some (lit "ENC_CLIENT"), some (int_bytes L), some P, some K] [] [] false)
      = Outcome.undefined (Conn.mk [some K] [] [lit "ENC_SERVER"] false) := by
  have hbi : bytes_int (int_bytes (L : Int)) = (L : Int) :=
    bytes_int_int_bytes _ (by omega) (by omega)
  have hsz : toSizeT (L : Int) = L := toSizeT_natCast _ hL2
  have h1 := read_segment [some (int_bytes L), some P, some K] [] [] false
    (lit "ENC_CLIENT") (EncServer.BUFFER_SIZE - 1) (by decide) (by decide)
  have h2 : (Conn.mk [some (int_bytes L), some P, some K] [] [] false).write (lit "ENC_SERVER")
      = (true, Conn.mk [some (int_bytes L), some P, some K] [] [lit "ENC_SERVER"] false) :=
    write_ok _ _ _ _
  have h3 := read_segment [some P, some K] [] [lit "ENC_SERVER"] false
    (int_bytes L) 4 (by decide) (by simp [int_bytes_length])
  have h4 := read_segment [some K] [] [lit "ENC_SERVER"] false P L (by omega) hPl
  have hcmp : ¬ strcmp (lit "ENC_CLIENT") (lit "ENC_CLIENT") ≠ 0 := by decide
  have hrange : (L : Int) < 0 ∨ (EncServer.BUFFER_SIZE : Int) ≤ (L : Int) := by
    right; simp only [EncServer.BUFFER_SIZE]; push_cast; omega
  have hl4 : ¬ (int_bytes (L : Int)).length = 0 := by simp [int_bytes_length]
  have hl4b : ¬ (int_bytes (L : Int)).length < 4 := by simp [int_bytes_length]
  unfold EncServer.handle_client
  simp only [h1, if_neg hcmp, h2, h3, if_neg hl4, if_neg hl4b, hbi, hsz, h4, if_pos hrange]

theorem dec_oversized_length (L : Nat) (P K : List Int) (hL : 1024 ≤ L) (hL2 : L < 2147483648)
    (hPl : P.length ≤ L) :
    DecServer.handle_client
        (Conn.mk [some (lit "DEC_CLIENT"), some (int_bytes L), some P, some K] [] [] false)
      = Outcome.undefined (Conn.mk [some K] [] [lit "DEC_SERVER"] false) := by
  have hbi : bytes_int (int_bytes (L : Int)) = (L : Int) :=
    bytes_int_int_bytes _ (by omega) (by omega)
  have hsz : toSizeT (L : Int) = L := toSizeT_natCast _ hL2
  have h1 := read_segment [some (int_bytes L), some P, some K] [] [] false
    (lit "DEC_CLIENT") (DecServer.BUFFER_SIZE - 1) (by decide) (by decide)
  have h2 : (Conn.mk [some (int_bytes L), some P, some K] [] [] false).write (lit "DEC_SERVER")
      = (true, Conn.mk [some (int_bytes L), some P, some K] [] [lit "DEC_SERVER"] false) :=
    write_ok _ _ _ _
  have h3 := read_segment [some P, some K] [] [lit "DEC_SERVER"] false
    (int_bytes L) 4 (by decide) (by simp [int_bytes_length])
  have h4 := read_segment [some K] [] [lit "DEC_SERVER"] false P L (by omega) hPl
  have hcmp : ¬ strcmp (lit "DEC_CLIENT") (lit "DEC_CLIENT") ≠ 0 := by decide
  have hrange : (L : Int) < 0 ∨ (DecServer.BUFFER_SIZE : Int) ≤ (L : Int) := by
    right; simp only [DecServer.BUFFER_SIZE]; push_cast; omega
  have hl4 : ¬ (int_bytes (L : Int)).length = 0 := by simp [int_bytes_length]
  have hl4b : ¬ (int_bytes (L : Int)).length < 4 := by simp [int_bytes_length]
  unfold DecServer.handle_client
  simp only [h1, if_neg hcmp, h2, h3, if_neg hl4, if_neg hl4b, hbi, hsz, h4, if_pos hrange]

/-! ## The claims about the protocol -/

/-- C4: for every payload `P` over the alphabet of at most 1023 symbols and every
key `K` with `length K ≥ length P`, the encryption client, once the handshake
`ENC_CLIENT`/`ENC_SERVER` is done, sends the length field `length P`, then `P`,
then exactly the first `length P` bytes of `K`; and `handle_client` of the
encryption server, reading each of these fields whole, answers that request
with `ENC_SERVER` followed by exactly the `length P` bytes of `encrypt_text P K`
and nothing else, then closes. -/
theorem enc_request_answered (P K : List Int) (hP : ∀ c ∈ P, c ∈ Spec.alphabet)
    (hlen : P.length ≤ 1023) (hK : P.length ≤ strlen K) :
    EncClient.main P K (Env.mk true true true
        (Conn.ofSegments [lit "ENC_SERVER", EncServer.encrypt_text P K]))
      = Run.mk [Event.socket, Event.gethostbyname, Event.connect,
            Event.stdout (EncServer.encrypt_text P K ++ [10])]
          (some (Conn.mk [] [] [lit "ENC_CLIENT", int_bytes P.length, P, K.take P.length] true))
          0
    ∧ EncServer.handle_client
        (Conn.ofSegments [lit "ENC_CLIENT", int_bytes P.length, P, K.take P.length])
      = Outcome.returned (Conn.mk [] [] [lit "ENC_SERVER", EncServer.encrypt_text P K] true)
    ∧ (EncServer.encrypt_text P K).length = P.length := by
  have hsl : strlen P = P.length := strlen_of_nul_free (nul_free_of_alphabet hP)
  have hel : (EncServer.encrypt_text P K).length = P.length := by
    rw [encrypt_text_length, hsl]
  have hKl : P.length ≤ K.length := Nat.le_trans hK (strlen_le_length K)
  have htl : (K.take P.length).length = P.length := by
    rw [List.length_take]; omega
  refine ⟨?_, ?_, hel⟩
  · exact enc_client_run P K _ hP hlen hK (encrypt_text_nul_free P K) (by omega)
  · rw [enc_handle_client_request P (K.take P.length) (by omega) htl]
    have hs : ¬ strlen (K.take P.length) < strlen P := by
      rw [strlen_take K P.length hK, hsl]; omega
    rw [if_neg hs, encrypt_text_take]

/-- Witness of C4: the payload `HELLO WORLD` with the longer key `XMCKLXMCKLXQQ Z`. -/
theorem enc_request_answered_witness :
    ((∀ c ∈ lit "HELLO WORLD", c ∈ Spec.alphabet) ∧ (lit "HELLO WORLD").length ≤ 1023
      ∧ (lit "HELLO WORLD").length ≤ strlen (lit "XMCKLXMCKLXQQ Z"))
    ∧ (lit "XMCKLXMCKLXQQ Z").take (lit "HELLO WORLD").length = lit "XMCKLXMCKLX"
    ∧ EncServer.handle_client (Conn.ofSegments [lit "ENC_CLIENT",
          int_bytes (lit "HELLO WORLD").length, lit "HELLO WORLD",
          (lit "XMCKLXMCKLXQQ Z").take (lit "HELLO WORLD").length])
      = Outcome.returned (Conn.mk [] [] [lit "ENC_SERVER",
          EncServer.encrypt_text (lit "HELLO WORLD") (lit "XMCKLXMCKLXQQ Z")] true) :=
  ⟨⟨by decide, by decide, by decide⟩, by decide,
    (enc_request_answered (lit "HELLO WORLD") (lit "XMCKLXMCKLXQQ Z")
      (by decide) (by decide) (by decide)).2.1⟩

/-- C7, as stated, fails: the eleven bytes `ENC_CLIENT` followed by a NUL byte are
not byte-for-byte the tag `ENC_CLIENT`, yet the encryption server answers them
with `ENC_SERVER` (and the decryption server answers `DEC_CLIENT` followed by a
NUL with `DEC_SERVER`). -/
theorem handshake_bytes_counterexample :
    (lit "ENC_CLIENT" ++ [0] ≠ lit "ENC_CLIENT"
      ∧ EncServer.handle_client (Conn.ofSegments [lit "ENC_CLIENT" ++ [0]])
        = Outcome.returned (Conn.mk [] [] [lit "ENC_SERVER"] true))
    ∧ (lit "DEC_CLIENT" ++ [0] ≠ lit "DEC_CLIENT"
      ∧ DecServer.handle_client (Conn.ofSegments [lit "DEC_CLIENT" ++ [0]])
        = Outcome.returned (Conn.mk [] [] [lit "DEC_SERVER"] true)) := by
  decide

/-- C7, amended: `handle_client` compares what it received as a C string.  For
every connection whose first segment is `h`, of which the handler reads at most
1023 bytes: when the bytes read, up to the first NUL, differ from the expected
client tag, the handler writes nothing, closes the connection and returns;
when they equal the tag (and the write does not fail), the first thing it
writes is the paired server tag.  This holds for the encryption server with
`ENC_CLIENT`/`ENC_SERVER` and for the decryption server with
`DEC_CLIENT`/`DEC_SERVER`. -/
theorem handshake_compares_c_strings (c : Conn) (h : List Int)
    (rest : List (Option (List Int))) (hinc : c.incoming = some h :: rest) :
    ((cstr (h.take 1023) ≠ lit "ENC_CLIENT" →
        ∃ c1, EncServer.handle_client c = Outcome.returned c1 ∧ c1.written = c.written
          ∧ c1.closed = true)
      ∧ (cstr (h.take 1023) = lit "ENC_CLIENT" → c.wfail.head? ≠ some true →
        (c.written ++ [lit "ENC_SERVER"]) <+: (EncServer.handle_client c).conn.written))
    ∧ ((cstr (h.take 1023) ≠ lit "DEC_CLIENT" →
        ∃ c1, DecServer.handle_client c = Outcome.returned c1 ∧ c1.written = c.written
          ∧ c1.closed = true)
      ∧ (cstr (h.take 1023) = lit "DEC_CLIENT" → c.wfail.head? ≠ some true →
        (c.written ++ [lit "DEC_SERVER"]) <+: (DecServer.handle_client c).conn.written)) :=
  ⟨⟨enc_handshake_mismatch c h rest hinc, enc_handshake_match c h rest hinc⟩,
    ⟨dec_handshake_mismatch c h rest hinc, dec_handshake_match c h rest hinc⟩⟩

/-- Witness of the amended C7: a peer that sends `DEC_CLIENT` to the encryption
server gets nothing written back and the connection closed. -/
theorem handshake_compares_c_strings_witness :
    (Conn.ofSegments [lit "DEC_CLIENT"]).incoming = some (lit "DEC_CLIENT") :: []
    ∧ cstr ((lit "DEC_CLIENT").take 1023) ≠ lit "ENC_CLIENT"
    ∧ ∃ c1, EncServer.handle_client (Conn.ofSegments [lit "DEC_CLIENT"]) = Outcome.returned c1
        ∧ c1.written = (Conn.ofSegments [lit "DEC_CLIENT"]).written ∧ c1.closed = true :=
  ⟨by decide, by decide,
    (handshake_compares_c_strings (Conn.ofSegments [lit "DEC_CLIENT"]) (lit "DEC_CLIENT") []
      (by decide)).1.1 (by decide)⟩

/-- C8, as stated, fails: the payload `a` is outside the alphabet and the client's
`validate_input` rejects it, yet the encryption server, handed it with the key
`A`, writes the transformed result `F`. -/
theorem invalid_symbol_counterexample :
    chr 'a' ∉ Spec.alphabet
    ∧ EncClient.validate_input (lit "a") = Validation.rejected
    ∧ EncServer.handle_client
        (Conn.ofSegments [lit "ENC_CLIENT", int_bytes 1, lit "a", lit "A"])
      = Outcome.returned (Conn.mk [] [] [lit "ENC_SERVER", lit "F"] true) := by
  decide

/-- C8, amended: the encryption server does not validate symbols.  For every
request that passes the handshake and whose payload field `P` (at most 1023
bytes, none of them NUL, with a key field `K` of the same length and without
NUL, each field read whole) contains a symbol outside the alphabet, the
handler writes the `length P` bytes of `encrypt_text P K` and closes the
connection; only the client's `validate_input` rejects such a payload. -/
theorem server_transforms_invalid_symbols (P K : List Int)
    (hbad : ∃ c ∈ P, c ∉ Spec.alphabet) (hP0 : ∀ c ∈ P, c ≠ 0) (hK0 : ∀ c ∈ K, c ≠ 0)
    (hP : P.length < 1024) (hK : K.length = P.length) :
    EncServer.handle_client (Conn.ofSegments [lit "ENC_CLIENT", int_bytes P.length, P, K])
      = Outcome.returned (Conn.mk [] [] [lit "ENC_SERVER", EncServer.encrypt_text P K] true)
    ∧ (EncServer.encrypt_text P K).length = P.length
    ∧ EncClient.validate_input P = Validation.rejected := by
  refine ⟨?_, ?_, ?_⟩
  · rw [enc_handle_client_request P K hP hK]
    have hs : ¬ strlen K < strlen P := by
      rw [strlen_of_nul_free hP0, strlen_of_nul_free hK0]; omega
    rw [if_neg hs]
  · rw [encrypt_text_length, strlen_of_nul_free hP0]
  · rw [enc_validate_input_iff, cstr_of_nul_free hP0]
    exact hbad

/-- Witness of the amended C8: the payload `HeLLO` (lower-case `e`) under the key
`XMCKL`. -/
theorem server_transforms_invalid_symbols_witness :
    ((∃ c ∈ lit "HeLLO", c ∉ Spec.alphabet) ∧ (∀ c ∈ lit "HeLLO", c ≠ 0)
      ∧ (∀ c ∈ lit "XMCKL", c ≠ 0) ∧ (lit "HeLLO").length < 1024
      ∧ (lit "XMCKL").length = (lit "HeLLO").length)
    ∧ EncServer.handle_client
        (Conn.ofSegments [lit "ENC_CLIENT", int_bytes (lit "HeLLO").length, lit "HeLLO",
          lit "XMCKL"])
      = Outcome.returned (Conn.mk [] [] [lit "ENC_SERVER",
          EncServer.encrypt_text (lit "HeLLO") (lit "XMCKL")] true) :=
  ⟨⟨by decide, by decide, by decide, by decide, by decide⟩,
    (server_transforms_invalid_symbols (lit "HeLLO") (lit "XMCKL") (by decide) (by decide)
      (by decide) (by decide) (by decide)).1⟩

/-- C9 at a failing input: a request that passes the handshake and declares the
length 2000, above the 1024-byte buffers.  Neither server rejects it: each goes
on to read the payload field (only the key field is left unread) and then
stores a NUL at index 2000 of a 1024-byte buffer, which is undefined
behaviour. -/
theorem oversized_length_not_rejected :
    EncServer.handle_client (Conn.ofSegments [lit "ENC_CLIENT", int_bytes 2000,
        List.replicate 2000 (chr 'A'), List.replicate 2000 (chr 'B')])
      = Outcome.undefined
          (Conn.mk [some (List.replicate 2000 (chr 'B'))] [] [lit "ENC_SERVER"] false)
    ∧ DecServer.handle_client (Conn.ofSegments [lit "DEC_CLIENT", int_bytes 2000,
        List.replicate 2000 (chr 'A'), List.replicate 2000 (chr 'B')])
      = Outcome.undefined
          (Conn.mk [some (List.replicate 2000 (chr 'B'))] [] [lit "DEC_SERVER"] false) := by
  have hA : (List.replicate 2000 (chr 'A')).length ≤ 2000 := by
    rw [List.length_replicate]
  have hA0 := replicate_ne_nil 2000 (chr 'A') (by decide)
  have hB0 := replicate_ne_nil 2000 (chr 'B') (by decide)
  constructor
  · rw [ofSegments_request _ _ _ _ (by decide) (by decide) hA0 hB0]
    exact enc_oversized_length 2000 _ _ (by decide) (by decide) hA
  · rw [ofSegments_request _ _ _ _ (by decide) (by decide) hA0 hB0]
    exact dec_oversized_length 2000 _ _ (by decide) (by decide) hA

/-! ## The codec of the two servers -/

theorem encrypt_char_eq (p k : Int) :
    EncServer.encrypt_char p k = EncServer.index_char (EncServer.encrypted_char p k) := rfl

theorem decrypt_char_eq (c k : Int) :
    DecServer.decrypt_char c k
      = (DecServer.plain_index c k).bind (charAt DecServer.ALPHABET) := by
  unfold DecServer.decrypt_char DecServer.plain_index
  split <;> rfl

/-! ## The codec of each server, symbol by symbol -/

theorem char_index_range : ∀ s ∈ Spec.alphabet,
    0 ≤ EncServer.char_index s ∧ EncServer.char_index s ≤ 26 := by
  decide

theorem index_char_mem : ∀ i < 27, EncServer.index_char ((i : Nat) : Int) ∈ Spec.alphabet := by
  decide

theorem strchr_alphabet_range : ∀ s ∈ Spec.alphabet,
    ∃ i < 27, strchr DecServer.ALPHABET s = some i := by
  decide

theorem charAt_alphabet_mem : ∀ i < 27,
    ∃ s ∈ Spec.alphabet, charAt DecServer.ALPHABET ((i : Nat) : Int) = some s := by
  decide

theorem tmod27_range_of_nonneg (x : Int) (hx : 0 ≤ x) :
    0 ≤ Int.tmod x 27 ∧ Int.tmod x 27 ≤ 26 := by
  have h1 := Int.tmod_nonneg 27 hx
  have h2 := Int.tmod_lt_of_pos x (by decide : (0 : Int) < 27)
  omega

theorem encrypted_char_range (p k : Int) (hp : p ∈ Spec.alphabet) (hk : k ∈ Spec.alphabet) :
    0 ≤ EncServer.encrypted_char p k ∧ EncServer.encrypted_char p k ≤ 26 := by
  have h1 := char_index_range p hp
  have h2 := char_index_range k hk
  unfold EncServer.encrypted_char EncServer.CHAR_COUNT
  exact tmod27_range_of_nonneg _ (by omega)

theorem index_char_mem_of_range (i : Int) (h0 : 0 ≤ i) (h1 : i ≤ 26) :
    EncServer.index_char i ∈ Spec.alphabet := by
  have h := index_char_mem i.toNat (by omega)
  rwa [Int.toNat_of_nonneg h0] at h

theorem charAt_alphabet_mem_of_range (j : Int) (h0 : 0 ≤ j) (h1 : j ≤ 26) :
    ∃ s ∈ Spec.alphabet, charAt DecServer.ALPHABET j = some s := by
  have h := charAt_alphabet_mem j.toNat (by omega)
  rwa [Int.toNat_of_nonneg h0] at h

theorem plain_index_range (c k : Int) (hc : c ∈ Spec.alphabet) (hk : k ∈ Spec.alphabet) :
    ∃ j, DecServer.plain_index c k = some j ∧ 0 ≤ j ∧ j ≤ 26 := by
  obtain ⟨ci, hci, hcs⟩ := strchr_alphabet_range c hc
  obtain ⟨ki, hki, hks⟩ := strchr_alphabet_range k hk
  have hr := tmod27_range_of_nonneg ((ci : Int) - (ki : Int) + 27) (by omega)
  refine ⟨Int.tmod ((ci : Int) - (ki : Int) + 27) 27, ?_, hr.1, hr.2⟩
  unfold DecServer.plain_index
  rw [hcs, hks]
  rfl

theorem getD_mem_of_lt {s : List Int} {i : Nat} (hi : i < s.length) : s.getD i 0 ∈ s := by
  rw [List.getD_eq_getElem s 0 hi]
  exact List.getElem_mem hi

theorem encrypt_text_mem_alphabet (P K : List Int) (hP : ∀ c ∈ P, c ∈ Spec.alphabet)
    (hK : ∀ c ∈ K, c ∈ Spec.alphabet) (hlen : P.length ≤ K.length) :
    ∀ c ∈ EncServer.encrypt_text P K, c ∈ Spec.alphabet := by
  induction P generalizing K with
  | nil => intro c hc; simp [EncServer.encrypt_text] at hc
  | cons p ps ih =>
    cases K with
    | nil => simp at hlen
    | cons k ks =>
      have hp : p ∈ Spec.alphabet := hP p (List.mem_cons_self p ps)
      have hk : k ∈ Spec.alphabet := hK k (List.mem_cons_self k ks)
      have hps : ∀ c ∈ ps, c ∈ Spec.alphabet := fun c hc => hP c (List.mem_cons_of_mem p hc)
      have hks : ∀ c ∈ ks, c ∈ Spec.alphabet := fun c hc => hK c (List.mem_cons_of_mem k hc)
      have hl : ps.length ≤ ks.length := by simpa using hlen
      rw [encrypt_text_cons p k ps ks (alphabet_nul_free p hp)]
      intro c hc
      rcases List.mem_cons.mp hc with h | h
      · rw [h, encrypt_char_eq]
        have hr := encrypted_char_range p k hp hk
        exact index_char_mem_of_range _ hr.1 hr.2
      · exact ih ks hps hks hl c h

/-! ## The claims about the codec and the indices -/

/-- C12: in both servers the codec is a bijection between the 27 symbols and the
indices 0..26.  For the arithmetic mapping of `enc_server.c` (space to 26,
otherwise `c - 'A'`; 26 to space, otherwise `'A' + i`) and for the table lookup
of `dec_server.c` in `ABCDEFGHIJKLMNOPQRSTUVWXYZ `: every alphabet symbol has an
index in 0..26 from which the symbol is recovered, every index in 0..26 has a
symbol in the alphabet from which the index is recovered, and the two mappings
agree on every symbol and on every index. -/
theorem codec_bijection :
    ((∀ s ∈ Spec.alphabet, 0 ≤ EncServer.char_index s ∧ EncServer.char_index s ≤ 26
          ∧ EncServer.index_char (EncServer.char_index s) = s)
      ∧ (∀ i < 27, EncServer.index_char ((i : Nat) : Int) ∈ Spec.alphabet
          ∧ EncServer.char_index (EncServer.index_char ((i : Nat) : Int)) = ((i : Nat) : Int)))
    ∧ ((∀ s ∈ Spec.alphabet, ∃ i < 27, strchr DecServer.ALPHABET s = some i
          ∧ charAt DecServer.ALPHABET ((i : Nat) : Int) = some s)
      ∧ (∀ i < 27, ∃ s ∈ Spec.alphabet, charAt DecServer.ALPHABET ((i : Nat) : Int) = some s
          ∧ strchr DecServer.ALPHABET s = some i))
    ∧ ((∀ s ∈ Spec.alphabet,
          (strchr DecServer.ALPHABET s).map (fun i => ((i : Nat) : Int))
            = some (EncServer.char_index s))
      ∧ (∀ i < 27, charAt DecServer.ALPHABET ((i : Nat) : Int)
            = some (EncServer.index_char ((i : Nat) : Int)))) := by
  refine ⟨⟨?_, ?_⟩, ⟨?_, ?_⟩, ⟨?_, ?_⟩⟩
  -- the arithmetic mapping of `enc_server.c`: symbol to index and back, index to symbol and back
  · decide
  · decide
  -- the table lookup of `dec_server.c`
  · decide
  · decide
  -- the two mappings coincide
  · decide
  · decide

/-- Witness of C12 at the symbol `Q`, whose index is 16 in both servers, and at
the space, whose index is 26. -/
theorem codec_bijection_witness :
    (EncServer.char_index (chr 'Q') = 16 ∧ EncServer.index_char 16 = chr 'Q'
      ∧ strchr DecServer.ALPHABET (chr 'Q') = some 16
      ∧ charAt DecServer.ALPHABET 16 = some (chr 'Q'))
    ∧ (EncServer.char_index (chr ' ') = 26 ∧ EncServer.index_char 26 = chr ' '
      ∧ strchr DecServer.ALPHABET (chr ' ') = some 26
      ∧ charAt DecServer.ALPHABET 26 = some (chr ' '))
    ∧ EncServer.index_char (EncServer.char_index (chr 'Q')) = chr 'Q' :=
  ⟨by decide, by decide, (codec_bijection.1.1 (chr 'Q') (by decide)).2.2⟩

/-- C14: for every payload `P` and key `K` over the alphabet with
`length K ≥ length P`, the index `encrypted_char` that `encrypt_text` computes
at each position and the index `plain_index` that `decrypt_message` computes at
each position lie in 0..26 (the remainder is never negative, the lookup
`ALPHABET[plain_index]` is inside the table); the symbol stored at the position
is the one the index is mapped back to, and every symbol of either result is in
the 27-symbol alphabet. -/
theorem transform_indices_in_range (P K : List Int) (hP : ∀ c ∈ P, c ∈ Spec.alphabet)
    (hK : ∀ c ∈ K, c ∈ Spec.alphabet) (hlen : P.length ≤ K.length) :
    ((∀ i, i < P.length →
          0 ≤ EncServer.encrypted_char (P.getD i 0) (K.getD i 0)
          ∧ EncServer.encrypted_char (P.getD i 0) (K.getD i 0) ≤ 26
          ∧ (EncServer.encrypt_text P K)[i]?
              = some (EncServer.index_char
                  (EncServer.encrypted_char (P.getD i 0) (K.getD i 0))))
      ∧ ∀ c ∈ EncServer.encrypt_text P K, c ∈ Spec.alphabet)
    ∧ ∃ R, DecServer.decrypt_message P K = some R
        ∧ (∀ i, i < P.length →
            ∃ j, DecServer.plain_index (P.getD i 0) (K.getD i 0) = some j
              ∧ 0 ≤ j ∧ j ≤ 26 ∧ R[i]? = charAt DecServer.ALPHABET j)
        ∧ ∀ c ∈ R, c ∈ Spec.alphabet := by
  have hPi : ∀ i, i < P.length → P.getD i 0 ∈ Spec.alphabet :=
    fun i hi => hP _ (getD_mem_of_lt hi)
  have hKi : ∀ i, i < P.length → K.getD i 0 ∈ Spec.alphabet :=
    fun i hi => hK _ (getD_mem_of_lt (Nat.lt_of_lt_of_le hi hlen))
  refine ⟨⟨?_, encrypt_text_mem_alphabet P K hP hK hlen⟩, ?_⟩
  · intro i hi
    have hr := encrypted_char_range _ _ (hPi i hi) (hKi i hi)
    refine ⟨hr.1, hr.2, ?_⟩
    rw [encrypt_text_getElem P K hP hK hlen i hi, encrypt_char_spec _ (hPi i hi) _ (hKi i hi),
      encrypt_char_eq]
  · obtain ⟨R, hR, hRlen, hRi⟩ := decrypt_loop_spec P K hP hK hlen
    have hpos : ∀ i, i < P.length →
        ∃ j, DecServer.plain_index (P.getD i 0) (K.getD i 0) = some j
          ∧ 0 ≤ j ∧ j ≤ 26 ∧ R[i]? = charAt DecServer.ALPHABET j := by
      intro i hi
      obtain ⟨j, hj, hj0, hj1⟩ := plain_index_range _ _ (hPi i hi) (hKi i hi)
      refine ⟨j, hj, hj0, hj1, ?_⟩
      rw [hRi i hi, ← (decrypt_char_spec _ (hPi i hi) _ (hKi i hi)).1, decrypt_char_eq, hj]
      rfl
    refine ⟨R, ?_, hpos, ?_⟩
    · unfold DecServer.decrypt_message
      rw [cstr_of_nul_free (nul_free_of_alphabet hP)]
      exact hR
    · intro c hc
      obtain ⟨i, hi, hic⟩ := List.getElem_of_mem hc
      obtain ⟨j, _, hj0, hj1, hj⟩ := hpos i (by rw [← hRlen]; exact hi)
      obtain ⟨s, hs, hsj⟩ := charAt_alphabet_mem_of_range j hj0 hj1
      have hget : R[i]? = some c := by rw [List.getElem?_eq_getElem hi, hic]
      rw [hget, hsj] at hj
      have hcs : c = s := Option.some.inj hj
      rw [hcs]
      exact hs

/-- Witness of C14 at the payload `HELLO WORLD` and the key `XMCKLXMCKLX`: the
index computed at position 5 (space plus `X`) is 22, and every symbol of
`DQNVZWHQAW ` is in the alphabet. -/
theorem transform_indices_in_range_witness :
    ((∀ c ∈ lit "HELLO WORLD", c ∈ Spec.alphabet)
      ∧ (∀ c ∈ lit "XMCKLXMCKLX", c ∈ Spec.alphabet)
      ∧ (lit "HELLO WORLD").length ≤ (lit "XMCKLXMCKLX").length)
    ∧ EncServer.encrypted_char ((lit "HELLO WORLD").getD 5 0) ((lit "XMCKLXMCKLX").getD 5 0) = 22
    ∧ ∀ c ∈ EncServer.encrypt_text (lit "HELLO WORLD") (lit "XMCKLXMCKLX"), c ∈ Spec.alphabet :=
  ⟨⟨by decide, by decide, by decide⟩, by decide,
    (transform_indices_in_range (lit "HELLO WORLD") (lit "XMCKLXMCKLX") (by decide) (by decide)
      (by decide)).1.2⟩

/-! ## The empty payload -/

theorem dec_client_run (P K reply : List Int) (hP : ∀ c ∈ P, c ∈ Spec.alphabet)
    (hlen : P.length ≤ 1023) (hK : P.length ≤ strlen K) (hr0 : ∀ c ∈ reply, c ≠ 0)
    (hrl : reply.length ≤ 1023) :
    DecClient.main P K (Env.mk true true true (Conn.ofSegments [lit "DEC_SERVER", reply]))
      = Run.mk [Event.socket, Event.gethostbyname, Event.connect, Event.stdout (reply ++ [10])]
          (some (Conn.mk [] [] [lit "DEC_CLIENT", int_bytes P.length, P, K.take P.length] true))
          0 := by
  have hv := dec_validate_input_alphabet P hP
  have hsl : strlen P = P.length := strlen_of_nul_free (nul_free_of_alphabet hP)
  have hk : ¬ strlen K < strlen P := by omega
  have h32 : toInt32 ((P.length : Nat) : Int) = (P.length : Int) := toInt32_natCast _ (by omega)
  have hsz : toSizeT (P.length : Int) = P.length := toSizeT_natCast _ (by omega)
  have htP : P.take P.length = P := List.take_length P
  have hcmp : ¬ strcmp (lit "DEC_SERVER") (lit "DEC_SERVER") ≠ 0 := by decide
  have hl0 : ¬ (lit "DEC_SERVER").length = 0 := by decide
  have hcs : cstr reply = reply := cstr_of_nul_free hr0
  have hwr : ∀ (inc : List (Option (List Int))) (w : List (List Int)) (b : List Int),
      (Conn.mk inc [] w false).write b = (true, Conn.mk inc [] (w ++ [b]) false) :=
    fun inc w b => write_ok inc w false b
  unfold DecClient.main
  rw [hv]
  simp only [if_neg hk, Bool.true_eq_false, if_false]
  by_cases hre : reply = []
  · subst hre
    have hc : Conn.ofSegments [lit "DEC_SERVER", []]
        = Conn.mk [some (lit "DEC_SERVER")] [] [] false := by decide
    have h1 := read_segment [] [] [lit "DEC_CLIENT"] false (lit "DEC_SERVER")
      (DecClient.BUFFER_SIZE - 1) (by decide) (by decide)
    simp only [hc, hwr, List.nil_append, h1, if_neg hl0, if_neg hcmp, hsl, h32, hsz, htP,
      List.cons_append, read_eof, Conn.close]
    rfl
  · have hc : Conn.ofSegments [lit "DEC_SERVER", reply]
        = Conn.mk [some (lit "DEC_SERVER"), some reply] [] [] false := by
      have : lit "DEC_SERVER" ≠ [] := by decide
      simp [Conn.ofSegments, List.filter, this, hre]
    have h1 := read_segment [some reply] [] [lit "DEC_CLIENT"] false (lit "DEC_SERVER")
      (DecClient.BUFFER_SIZE - 1) (by decide) (by decide)
    have h2 := read_segment [] [] [lit "DEC_CLIENT", int_bytes P.length, P, K.take P.length]
      false reply (DecClient.BUFFER_SIZE - 1) (by decide) hrl
    simp only [hc, hwr, List.nil_append, h1, if_neg hl0, if_neg hcmp, hsl, h32, hsz, htP,
      List.cons_append, h2, Conn.close, hcs]

theorem dec_handle_client_empty :
    DecServer.handle_client
        (Conn.mk [some (lit "DEC_CLIENT"), some (int_bytes 0)] [] [] false)
      = Outcome.returned (Conn.mk [] [] [lit "DEC_SERVER", []] true) := by
  decide

theorem ofSegments_empty_request (tag : List Int) (ht : tag ≠ []) :
    Conn.ofSegments [tag, int_bytes 0, [], []]
      = Conn.mk [some tag, some (int_bytes 0)] [] [] false := by
  have hl : int_bytes 0 ≠ [] := by decide
  simp [Conn.ofSegments, List.filter, ht, hl]

/-- C11: for every key `K`, of any content and the empty key included,
`encrypt_text` and `decrypt_message` of the empty payload are the empty string.
The key-length check of each client lets the empty payload through with any
key (the client goes on to `socket()`), the request it then sends has an empty
payload field and an empty key field, and each server answers that request
with its tag followed by the empty sequence, which the client prints as an
empty line. -/
theorem empty_payload_any_key (K : List Int) (env : Env) :
    (EncServer.encrypt_text [] K = [] ∧ DecServer.decrypt_message [] K = some [])
    ∧ ((EncClient.main [] K env).trace.head? = some Event.socket
      ∧ (DecClient.main [] K env).trace.head? = some Event.socket)
    ∧ (EncClient.main [] K (Env.mk true true true (Conn.ofSegments [lit "ENC_SERVER", []]))
        = Run.mk [Event.socket, Event.gethostbyname, Event.connect, Event.stdout [10]]
            (some (Conn.mk [] [] [lit "ENC_CLIENT", int_bytes 0, [], []] true)) 0
      ∧ DecClient.main [] K (Env.mk true true true (Conn.ofSegments [lit "DEC_SERVER", []]))
        = Run.mk [Event.socket, Event.gethostbyname, Event.connect, Event.stdout [10]]
            (some (Conn.mk [] [] [lit "DEC_CLIENT", int_bytes 0, [], []] true)) 0)
    ∧ (EncServer.handle_client (Conn.ofSegments [lit "ENC_CLIENT", int_bytes 0, [], []])
        = Outcome.returned (Conn.mk [] [] [lit "ENC_SERVER", []] true)
      ∧ DecServer.handle_client (Conn.ofSegments [lit "DEC_CLIENT", int_bytes 0, [], []])
        = Outcome.returned (Conn.mk [] [] [lit "DEC_SERVER", []] true)) := by
  have hnil : ∀ c ∈ ([] : List Int), c ∈ Spec.alphabet := fun c hc => by simp at hc
  have hnil0 : ∀ c ∈ ([] : List Int), c ≠ 0 := fun c hc => by simp at hc
  have hk : ¬ strlen K < strlen [] := by simp [strlen]
  refine ⟨⟨rfl, rfl⟩, ⟨?_, ?_⟩, ⟨?_, ?_⟩, ⟨?_, ?_⟩⟩
  · exact enc_main_trace_of_passed [] K env rfl hk
  · exact dec_main_trace_of_passed [] K env rfl hk
  · exact enc_client_run [] K [] hnil (by simp) (by simp) hnil0 (by simp)
  · exact dec_client_run [] K [] hnil (by simp) (by simp) hnil0 (by simp)
  · rw [ofSegments_empty_request _ (by decide)]
    exact enc_handle_client_empty
  · rw [ofSegments_empty_request _ (by decide)]
    exact dec_handle_client_empty
